import Mathlib

/-!
Verification of the HubSpot integration core of this repository:
rate limiter, HTTP gateway retry loop, batch association resolvers,
cursor pagination, read-through task cache, and merged contact search.

Each Python function is shallowly embedded as an executable Lean
definition; remote HTTP endpoints are modelled as oracle functions, and
the embeddings return both their results and a trace of the remote
calls they issue.  Monotonic clock values and float durations are
modelled as rationals; HubSpot millisecond timestamps as integers.
-/

namespace HubSpotVerify

/-! ### Rate limiter

Embeds `HubSpotService._rate_limit_wait` (services/hubspot_service.py
lines 62-78) together with the two lines of `_request` that drive it
(line 116: `self._rate_limit_wait()`, line 117:
`self._request_timestamps.append(time.monotonic())`).

The deque of request timestamps is a list with oldest first; the
`maxlen=RATE_LIMIT_MAX_REQUESTS + 10` bound of the deque constructor is
modelled by `dequeAppend`.  `LimiterState.clock` is the value
`time.monotonic()` would return (sleeping advances it); `recorded` is
the history of all timestamps ever appended at line 117, kept for
analysis of the sliding-window property.  Monotonic times are modelled
in integer seconds; every operation the limiter performs on times
(subtraction, comparison, addition of the sleep amount) is exact over
the integers. -/

def RATE_LIMIT_WINDOW_SEC : ℤ := 10

def RATE_LIMIT_MAX_REQUESTS : Nat := 95

def dequeMaxlen : Nat := RATE_LIMIT_MAX_REQUESTS + 10

def dequeAppend (q : List ℤ) (x : ℤ) : List ℤ :=
  (if dequeMaxlen ≤ q.length then q.tail else q) ++ [x]

/-- `_rate_limit_wait` given the current monotonic time `now` and the
timestamp queue; returns the queue after the call and the monotonic
time after the call (sleeping advances the time). -/
def rate_limit_wait (now : ℤ) (q : List ℤ) : List ℤ × ℤ :=
  let q2 := q.dropWhile (fun ts => decide (RATE_LIMIT_WINDOW_SEC ≤ now - ts))
  if RATE_LIMIT_MAX_REQUESTS ≤ q2.length then
    match q2 with
    | [] => ([], now)
    | oldest :: _ =>
      let sleepTime := RATE_LIMIT_WINDOW_SEC - (now - oldest)
      ([], if 0 < sleepTime then now + sleepTime else now)
  else (q2, now)

structure LimiterState where
  timestamps : List ℤ
  clock : ℤ
  recorded : List ℤ
deriving Repr, DecidableEq

/-- One rate-limited request attempt: `_rate_limit_wait()` followed by
`self._request_timestamps.append(time.monotonic())`.  `arrival` is the
time at which the caller reaches line 116; the monotonic clock never
goes backwards, hence the `max`. -/
def limiterAttempt (st : LimiterState) (arrival : ℤ) : LimiterState :=
  let now := max st.clock arrival
  let r := rate_limit_wait now st.timestamps
  { timestamps := dequeAppend r.1 r.2
    clock := r.2
    recorded := st.recorded ++ [r.2] }

def limiterInit : LimiterState := ⟨[], 0, []⟩

def runLimiter (arrivals : List ℤ) : LimiterState :=
  arrivals.foldl limiterAttempt limiterInit

/-- Number of recorded request timestamps inside the sliding window
`(t, t + RATE_LIMIT_WINDOW_SEC]`. -/
def windowCount (recorded : List ℤ) (t : ℤ) : Nat :=
  (recorded.filter fun s => decide (t < s) && decide (s ≤ t + RATE_LIMIT_WINDOW_SEC)).length

/-- A schedule of attempt arrival times that defeats the sliding-window
bound: one request at t=0, 94 at t=5, one at t=6 (which sleeps until
t=10 and clears the queue), then 94 more at t=10. -/
def limiterBreaker : List ℤ :=
  [0] ++ List.replicate 94 5 ++ [6] ++ List.replicate 94 10

lemma dropWhile_eq_cons_head_false {p : ℤ → Bool} :
    ∀ {l : List ℤ} {a : ℤ} {r : List ℤ}, l.dropWhile p = a :: r → p a = false := by
  intro l
  induction l with
  | nil => intro a r h; simp [List.dropWhile] at h
  | cons x xs ih =>
    intro a r h
    by_cases hx : p x
    · rw [List.dropWhile_cons_of_pos hx] at h
      exact ih h
    · rw [List.dropWhile_cons_of_neg hx] at h
      cases h
      simpa using hx

lemma rate_limit_wait_of_small {now : ℤ} {q : List ℤ}
    (h : (q.dropWhile fun ts => decide (RATE_LIMIT_WINDOW_SEC ≤ now - ts)).length
      < RATE_LIMIT_MAX_REQUESTS) :
    rate_limit_wait now q =
      (q.dropWhile fun ts => decide (RATE_LIMIT_WINDOW_SEC ≤ now - ts), now) := by
  unfold rate_limit_wait
  rw [if_neg (by omega)]

lemma rate_limit_wait_of_full {now oldest : ℤ} {q rest : List ℤ}
    (hdrop : (q.dropWhile fun ts => decide (RATE_LIMIT_WINDOW_SEC ≤ now - ts))
      = oldest :: rest)
    (hlen : RATE_LIMIT_MAX_REQUESTS ≤ (oldest :: rest).length) :
    rate_limit_wait now q = ([], now + (RATE_LIMIT_WINDOW_SEC - (now - oldest))) := by
  have hfalse : decide (RATE_LIMIT_WINDOW_SEC ≤ now - oldest) = false :=
    dropWhile_eq_cons_head_false hdrop
  have hpos : 0 < RATE_LIMIT_WINDOW_SEC - (now - oldest) := by
    have := of_decide_eq_false hfalse
    omega
  unfold rate_limit_wait
  rw [hdrop, if_pos hlen]
  simp only [if_pos hpos]

lemma limiterAttempt_timestamps_length_le (st : LimiterState) (a : ℤ) :
    ((limiterAttempt st a).timestamps).length ≤ RATE_LIMIT_MAX_REQUESTS := by
  show (dequeAppend (rate_limit_wait (max st.clock a) st.timestamps).1
      (rate_limit_wait (max st.clock a) st.timestamps).2).length ≤ RATE_LIMIT_MAX_REQUESTS
  by_cases h :
      (st.timestamps.dropWhile
        fun ts => decide (RATE_LIMIT_WINDOW_SEC ≤ max st.clock a - ts)).length
        < RATE_LIMIT_MAX_REQUESTS
  · rw [rate_limit_wait_of_small h]
    dsimp only
    rw [dequeAppend]
    rw [if_neg (by unfold dequeMaxlen RATE_LIMIT_MAX_REQUESTS at *; omega)]
    rw [List.length_append]
    unfold RATE_LIMIT_MAX_REQUESTS at *
    simp only [List.length_cons, List.length_nil]
    omega
  · obtain ⟨oldest, rest, hdrop⟩ :
        ∃ oldest rest,
          (st.timestamps.dropWhile
            fun ts => decide (RATE_LIMIT_WINDOW_SEC ≤ max st.clock a - ts))
            = oldest :: rest := by
      cases hd : st.timestamps.dropWhile
          fun ts => decide (RATE_LIMIT_WINDOW_SEC ≤ max st.clock a - ts) with
      | nil => rw [hd] at h; simp [RATE_LIMIT_MAX_REQUESTS] at h
      | cons x xs => exact ⟨x, xs, rfl⟩
    rw [rate_limit_wait_of_full hdrop (by rw [hdrop] at h; omega)]
    rw [dequeAppend]
    simp [dequeMaxlen, RATE_LIMIT_MAX_REQUESTS]

lemma foldl_limiterAttempt_length_le :
    ∀ (l : List ℤ) (st : LimiterState),
      st.timestamps.length ≤ RATE_LIMIT_MAX_REQUESTS →
      ((l.foldl limiterAttempt st).timestamps).length ≤ RATE_LIMIT_MAX_REQUESTS
  | [], _, h => h
  | a :: l, st, _ =>
    foldl_limiterAttempt_length_le l (limiterAttempt st a)
      (limiterAttempt_timestamps_length_le st a)

set_option maxRecDepth 200000 in
/-- C1 (counterexample).  Running the limiter on the `limiterBreaker`
schedule records 189 request timestamps inside the single sliding
10-second window `(0, 10]`: the sleep-then-`clear()` step forgets the
94 requests recorded at t=5, which are still inside the window when
the cleared queue starts refilling at t=10.  So the claimed bound of
95 per sliding window is violated. -/
theorem rate_limiter_window_bound_violated :
    RATE_LIMIT_MAX_REQUESTS < windowCount (runLimiter limiterBreaker).recorded 0 := by
  show 95 < windowCount (runLimiter limiterBreaker).recorded 0
  decide

/-- C1 (amended).  For every sequence of rate-limited request attempts
(each attempt first runs the limiter wait, then records its timestamp),
the timestamp queue itself never holds more than 95 entries; on each
wait, timestamps aged 10s or more are dropped, and if 95 or more
remain the caller sleeps `10 - (now - oldest)` seconds, the queue is
cleared and the attempt is recorded at the wake-up time, otherwise the
call proceeds and is recorded immediately.  (The sliding-window bound
of the original claim fails, see
`rate_limiter_window_bound_violated`.) -/
theorem rate_limiter_amended :
    (∀ arrivals : List ℤ,
        ((runLimiter arrivals).timestamps).length ≤ RATE_LIMIT_MAX_REQUESTS) ∧
    (∀ (st : LimiterState) (arrival : ℤ),
        (st.timestamps.dropWhile
            (fun ts => decide (RATE_LIMIT_WINDOW_SEC ≤ max st.clock arrival - ts))).length
          < RATE_LIMIT_MAX_REQUESTS →
        limiterAttempt st arrival =
          ⟨(st.timestamps.dropWhile
              (fun ts => decide (RATE_LIMIT_WINDOW_SEC ≤ max st.clock arrival - ts)))
            ++ [max st.clock arrival],
            max st.clock arrival, st.recorded ++ [max st.clock arrival]⟩) ∧
    (∀ (st : LimiterState) (arrival oldest : ℤ) (rest : List ℤ),
        st.timestamps.dropWhile
            (fun ts => decide (RATE_LIMIT_WINDOW_SEC ≤ max st.clock arrival - ts))
          = oldest :: rest →
        RATE_LIMIT_MAX_REQUESTS ≤ (oldest :: rest).length →
        limiterAttempt st arrival =
          ⟨[max st.clock arrival + (RATE_LIMIT_WINDOW_SEC - (max st.clock arrival - oldest))],
            max st.clock arrival + (RATE_LIMIT_WINDOW_SEC - (max st.clock arrival - oldest)),
            st.recorded ++
              [max st.clock arrival +
                (RATE_LIMIT_WINDOW_SEC - (max st.clock arrival - oldest))]⟩) := by
  refine ⟨fun arrivals => foldl_limiterAttempt_length_le arrivals limiterInit (by simp [limiterInit]),
    fun st arrival hlen => ?_, fun st arrival oldest rest hdrop hlen => ?_⟩
  · show LimiterState.mk
        (dequeAppend (rate_limit_wait (max st.clock arrival) st.timestamps).1
          (rate_limit_wait (max st.clock arrival) st.timestamps).2)
        (rate_limit_wait (max st.clock arrival) st.timestamps).2
        (st.recorded ++ [(rate_limit_wait (max st.clock arrival) st.timestamps).2]) = _
    rw [rate_limit_wait_of_small hlen]
    dsimp only
    rw [dequeAppend, if_neg (by unfold dequeMaxlen RATE_LIMIT_MAX_REQUESTS at *; omega)]
  · show LimiterState.mk
        (dequeAppend (rate_limit_wait (max st.clock arrival) st.timestamps).1
          (rate_limit_wait (max st.clock arrival) st.timestamps).2)
        (rate_limit_wait (max st.clock arrival) st.timestamps).2
        (st.recorded ++ [(rate_limit_wait (max st.clock arrival) st.timestamps).2]) = _
    rw [rate_limit_wait_of_full hdrop hlen]
    rw [dequeAppend]
    simp [dequeMaxlen]

/-- Witness for `rate_limiter_amended` at concrete inputs: a two-attempt
run keeps the queue at two entries; an attempt on a non-full queue
appends its arrival time; an attempt on a full queue of 95 timestamps
taken at t=0, arriving at t=5, sleeps until t=10 and leaves the queue
cleared down to its own timestamp. -/
theorem rate_limiter_amended_witness :
    ((runLimiter [0, 1]).timestamps).length ≤ RATE_LIMIT_MAX_REQUESTS ∧
    limiterAttempt ⟨[0], 0, [0]⟩ 1 = ⟨[0, 1], 1, [0, 1]⟩ ∧
    limiterAttempt ⟨List.replicate 95 0, 0, List.replicate 95 0⟩ 5 =
      ⟨[10], 10, List.replicate 95 0 ++ [10]⟩ := by
  refine ⟨rate_limiter_amended.1 [0, 1], ?_, ?_⟩
  · exact (rate_limiter_amended.2.1 ⟨[0], 0, [0]⟩ 1 (by decide)).trans (by decide)
  · exact (rate_limiter_amended.2.2 ⟨List.replicate 95 0, 0, List.replicate 95 0⟩ 5 0
      (List.replicate 94 0) (by decide) (by decide)).trans (by decide)

/-! ### Gateway retry loop

Embeds `HubSpotService._request` (services/hubspot_service.py lines
97-161).  The remote is modelled by an oracle `outcome : Nat →
AttemptOutcome` giving, for each attempt index, either a transport
failure (`requests.RequestException`) or an HTTP response with a status
code and optional `Retry-After` header.  The run returns the ordered
list of observable events (rate-limiter acquisition, HTTP attempt,
backoff sleep) and the final result.  `requests.Response.ok` is status
< 400; `_retry_status_codes = (429, 500, 502, 503)`.  Backoff
durations are rationals (Python floats); digit parsing of the
`Retry-After` header models `str.isdigit` over ASCII digits. -/

inductive AttemptOutcome where
  | transport
  | response (status : Nat) (retryAfter : Option String)
deriving Repr, DecidableEq

def RETRY_STATUS_CODES : List Nat := [429, 500, 502, 503]

inductive GEvent where
  | acquire
  | httpAttempt (i : Nat)
  | sleep (secs : ℚ)
deriving Repr, DecidableEq

inductive HSErr where
  | noToken
  | fromStatus (status : Nat)
  | exhausted
  | unexpectedFall
deriving Repr, DecidableEq

/-- Python `str.isdigit` (ASCII digits). -/
def pyIsDigit (s : String) : Bool :=
  s.toList.length != 0 && s.toList.all Char.isDigit

/-- Value of an all-digit string, as `float(retry_after)` yields on the
strings accepted by the `isdigit` guard. -/
def pyStrToNat (s : String) : Nat :=
  s.toList.foldl (fun acc c => acc * 10 + (c.toNat - Char.toNat (Char.ofNat 48))) 0

/-- The backoff duration chosen at line 144:
`float(retry_after) if retry_after and retry_after.isdigit() else (2 ** attempt)`
(`retry_after` is falsy when the header is absent or empty). -/
def retryWaitSecs (attempt : Nat) (retryAfter : Option String) : ℚ :=
  match retryAfter with
  | some ra => if ra != "" && pyIsDigit ra then ((pyStrToNat ra : ℕ) : ℚ)
               else ((2 ^ attempt : ℕ) : ℚ)
  | none => ((2 ^ attempt : ℕ) : ℚ)

/-- The retry loop `for attempt in range(retries + 1)` of `_request`,
starting at `attempt` with `fuel` iterations left (`fuel` is
`retries + 1 - attempt`), and the running `last_exc` flag.  After the
loop, `last_exc` decides between the "failed after n attempts" raise
and the unreachable "failed unexpectedly" raise. -/
def requestGo (outcome : Nat → AttemptOutcome) (retries : Nat) :
    Nat → Nat → Bool → List GEvent × Except HSErr Unit
  | _, 0, lastExc =>
    ([], .error (if lastExc then .exhausted else .unexpectedFall))
  | attempt, fuel + 1, lastExc =>
    let ev := [GEvent.acquire, GEvent.httpAttempt attempt]
    match outcome attempt with
    | .transport =>
      if attempt < retries then
        let rest := requestGo outcome retries (attempt + 1) fuel true
        (ev ++ [GEvent.sleep ((2 ^ attempt : ℕ) : ℚ)] ++ rest.1, rest.2)
      else
        let rest := requestGo outcome retries (attempt + 1) fuel true
        (ev ++ rest.1, rest.2)
    | .response status retryAfter =>
      if status < 400 then (ev, .ok ())
      else if status ∈ RETRY_STATUS_CODES ∧ attempt < retries then
        let rest := requestGo outcome retries (attempt + 1) fuel lastExc
        (ev ++ [GEvent.sleep (retryWaitSecs attempt retryAfter)] ++ rest.1, rest.2)
      else (ev, .error (.fromStatus status))

def DEFAULT_MAX_RETRIES : Nat := 3

/-- `HubSpotService._request`: the `_get_headers` token check (which
raises before any attempt when no token is configured), then the retry
loop. -/
def hubRequest (hasToken : Bool) (outcome : Nat → AttemptOutcome) (retries : Nat) :
    List GEvent × Except HSErr Unit :=
  if hasToken then requestGo outcome retries 0 (retries + 1) false
  else ([], .error .noToken)

def countAttempts (tr : List GEvent) : Nat :=
  (tr.filter fun e => match e with | .httpAttempt _ => true | _ => false).length

def countAcquires (tr : List GEvent) : Nat :=
  (tr.filter fun e => match e with | .acquire => true | _ => false).length

def sleepsOf (tr : List GEvent) : List ℚ :=
  tr.filterMap fun e => match e with | .sleep s => some s | _ => none

/-- A trace in which every HTTP attempt is immediately preceded by a
rate-limiter acquisition. -/
def wellFormedTrace : List GEvent → Bool
  | [] => true
  | .acquire :: .httpAttempt _ :: rest => wellFormedTrace rest
  | .sleep _ :: rest => wellFormedTrace rest
  | _ => false

/-- A transient attempt outcome: transport failure or retryable status. -/
def isTransient : AttemptOutcome → Bool
  | .transport => true
  | .response s _ => decide (s ∈ RETRY_STATUS_CODES)

/-- The errors `_request` raises for exhausted transient failures:
either the post-loop raise (transport) or `_handle_error` on the final
retryable status. -/
def isTransientRaise : HSErr → Bool
  | .exhausted => true
  | .fromStatus s => decide (s ∈ RETRY_STATUS_CODES)
  | _ => false

lemma retry_status_not_ok {s : Nat} (h : s ∈ RETRY_STATUS_CODES) : ¬ s < 400 := by
  simp [RETRY_STATUS_CODES] at h
  rcases h with rfl | rfl | rfl | rfl <;> omega

@[simp] lemma countAttempts_nil : countAttempts [] = 0 := rfl

@[simp] lemma countAttempts_cons_acquire (tr : List GEvent) :
    countAttempts (.acquire :: tr) = countAttempts tr := by
  simp [countAttempts, List.filter]

@[simp] lemma countAttempts_cons_http (i : Nat) (tr : List GEvent) :
    countAttempts (.httpAttempt i :: tr) = countAttempts tr + 1 := by
  simp [countAttempts, List.filter]

@[simp] lemma countAttempts_cons_sleep (s : ℚ) (tr : List GEvent) :
    countAttempts (.sleep s :: tr) = countAttempts tr := by
  simp [countAttempts, List.filter]

@[simp] lemma countAcquires_nil : countAcquires [] = 0 := rfl

@[simp] lemma countAcquires_cons_acquire (tr : List GEvent) :
    countAcquires (.acquire :: tr) = countAcquires tr + 1 := by
  simp [countAcquires, List.filter]

@[simp] lemma countAcquires_cons_http (i : Nat) (tr : List GEvent) :
    countAcquires (.httpAttempt i :: tr) = countAcquires tr := by
  simp [countAcquires, List.filter]

@[simp] lemma countAcquires_cons_sleep (s : ℚ) (tr : List GEvent) :
    countAcquires (.sleep s :: tr) = countAcquires tr := by
  simp [countAcquires, List.filter]

@[simp] lemma sleepsOf_nil : sleepsOf [] = [] := rfl

@[simp] lemma sleepsOf_cons_acquire (tr : List GEvent) :
    sleepsOf (.acquire :: tr) = sleepsOf tr := by
  simp [sleepsOf]

@[simp] lemma sleepsOf_cons_http (i : Nat) (tr : List GEvent) :
    sleepsOf (.httpAttempt i :: tr) = sleepsOf tr := by
  simp [sleepsOf]

@[simp] lemma sleepsOf_cons_sleep (s : ℚ) (tr : List GEvent) :
    sleepsOf (.sleep s :: tr) = s :: sleepsOf tr := by
  simp [sleepsOf]

@[simp] lemma wellFormedTrace_nil : wellFormedTrace [] = true := rfl

@[simp] lemma wellFormedTrace_pair (i : Nat) (tr : List GEvent) :
    wellFormedTrace (.acquire :: .httpAttempt i :: tr) = wellFormedTrace tr := rfl

@[simp] lemma wellFormedTrace_cons_sleep (s : ℚ) (tr : List GEvent) :
    wellFormedTrace (.sleep s :: tr) = wellFormedTrace tr := rfl

lemma requestGo_all_transient (outcome : Nat → AttemptOutcome) (retries : Nat)
    (H : ∀ i, i ≤ retries → isTransient (outcome i) = true) :
    ∀ (fuel attempt : Nat) (lastExc : Bool), attempt + fuel = retries + 1 → 0 < fuel →
      countAttempts (requestGo outcome retries attempt fuel lastExc).1 = fuel ∧
      countAcquires (requestGo outcome retries attempt fuel lastExc).1 = fuel ∧
      wellFormedTrace (requestGo outcome retries attempt fuel lastExc).1 = true ∧
      ∃ e, (requestGo outcome retries attempt fuel lastExc).2 = .error e ∧
        isTransientRaise e = true := by
  intro fuel
  induction fuel with
  | zero => intro attempt lastExc _ h0; omega
  | succ n ih =>
    intro attempt lastExc hsum _
    have hle : attempt ≤ retries := by omega
    have htr := H attempt hle
    cases hout : outcome attempt with
    | transport =>
      by_cases hlt : attempt < retries
      · have hn : 0 < n := by omega
        obtain ⟨c1, c2, c3, e, he, hte⟩ := ih (attempt + 1) true (by omega) hn
        have heq : requestGo outcome retries attempt (n + 1) lastExc =
            (GEvent.acquire :: GEvent.httpAttempt attempt ::
              GEvent.sleep ((2 ^ attempt : ℕ) : ℚ) ::
              (requestGo outcome retries (attempt + 1) n true).1,
              (requestGo outcome retries (attempt + 1) n true).2) := by
          simp [requestGo, hout, hlt]
        rw [heq]
        exact ⟨by simp [c1], by simp [c2], by simp [c3], e, he, hte⟩
      · have hn : n = 0 := by omega
        subst hn
        have heq : requestGo outcome retries attempt 1 lastExc =
            ([GEvent.acquire, GEvent.httpAttempt attempt], .error HSErr.exhausted) := by
          simp [requestGo, hout, hlt]
        rw [heq]
        exact ⟨by simp, by simp, by simp, HSErr.exhausted, rfl, rfl⟩
    | response s ra =>
      rw [hout] at htr
      have hmem : s ∈ RETRY_STATUS_CODES := by simpa [isTransient] using htr
      have hnok : ¬ s < 400 := retry_status_not_ok hmem
      by_cases hlt : attempt < retries
      · have hn : 0 < n := by omega
        obtain ⟨c1, c2, c3, e, he, hte⟩ := ih (attempt + 1) lastExc (by omega) hn
        have heq : requestGo outcome retries attempt (n + 1) lastExc =
            (GEvent.acquire :: GEvent.httpAttempt attempt ::
              GEvent.sleep (retryWaitSecs attempt ra) ::
              (requestGo outcome retries (attempt + 1) n lastExc).1,
              (requestGo outcome retries (attempt + 1) n lastExc).2) := by
          simp only [requestGo, hout]
          rw [if_neg hnok, if_pos (And.intro hmem hlt)]
          rfl
        rw [heq]
        exact ⟨by simp [c1], by simp [c2], by simp [c3], e, he, hte⟩
      · have hn : n = 0 := by omega
        subst hn
        have heq : requestGo outcome retries attempt 1 lastExc =
            ([GEvent.acquire, GEvent.httpAttempt attempt], .error (.fromStatus s)) := by
          simp only [requestGo, hout]
          rw [if_neg hnok, if_neg (fun hand => hlt hand.2)]
        rw [heq]
        exact ⟨by simp, by simp, by simp, .fromStatus s, rfl,
          by simpa [isTransientRaise] using hmem⟩

/-- C7.  For every sequence of consecutive transient failures
(transport error, or status in {429, 500, 502, 503}), `_request`
raises a transient error exactly after `max_retries + 1` failed
attempts (4 with the default `max_retries = 3`), never fewer and never
more, and every attempt passes through the rate limiter first. -/
theorem gateway_exhausts_transient_failures (outcome : Nat → AttemptOutcome)
    (retries : Nat) (H : ∀ i, i ≤ retries → isTransient (outcome i) = true) :
    countAttempts (hubRequest true outcome retries).1 = retries + 1 ∧
    countAcquires (hubRequest true outcome retries).1 = retries + 1 ∧
    wellFormedTrace (hubRequest true outcome retries).1 = true ∧
    ∃ e, (hubRequest true outcome retries).2 = .error e ∧ isTransientRaise e = true := by
  have h := requestGo_all_transient outcome retries H (retries + 1) 0 false (by omega)
    (by omega)
  simpa [hubRequest] using h

/-- Witness for `gateway_exhausts_transient_failures`: a remote that
always answers 429 makes the gateway perform exactly
`DEFAULT_MAX_RETRIES + 1 = 4` attempts and raise. -/
theorem gateway_exhausts_transient_failures_witness :
    (∀ i, i ≤ DEFAULT_MAX_RETRIES →
      isTransient ((fun _ => AttemptOutcome.response 429 none) i) = true) ∧
    countAttempts
      (hubRequest true (fun _ => AttemptOutcome.response 429 none) DEFAULT_MAX_RETRIES).1
      = 4 ∧
    ∃ e, (hubRequest true (fun _ => AttemptOutcome.response 429 none)
      DEFAULT_MAX_RETRIES).2 = .error e ∧ isTransientRaise e = true := by
  refine ⟨by decide, ?_, ?_⟩
  · exact (gateway_exhausts_transient_failures _ DEFAULT_MAX_RETRIES (by decide)).1
  · exact (gateway_exhausts_transient_failures _ DEFAULT_MAX_RETRIES (by decide)).2.2.2

/-- An oracle whose first response is a 429 carrying `Retry-After: 2.5`
and which then succeeds. -/
def retryAfterBreaker : Nat → AttemptOutcome :=
  fun i => if i = 0 then .response 429 (some "2.5") else .response 200 none

/-- C6 (counterexample).  A retryable 429 response carrying
`Retry-After: 2.5` does not make the gateway sleep 2.5 seconds: the
header value fails the `isdigit()` guard at line 144, so the code falls
back to `2 ** attempt` and sleeps exactly 1 second before the next
attempt. -/
theorem gateway_retry_after_header_ignored :
    sleepsOf (hubRequest true retryAfterBreaker DEFAULT_MAX_RETRIES).1 = [(1 : ℚ)] ∧
    (1 : ℚ) ≠ 5 / 2 := by
  constructor
  · decide
  · norm_num

lemma requestGo_sleep_at (outcome : Nat → AttemptOutcome) (retries attempt : Nat)
    (s : Nat) (ra : Option String)
    (hout : outcome attempt = .response s ra)
    (hs : s ∈ RETRY_STATUS_CODES) (hlt : attempt < retries)
    (hPrev : ∀ i, i < attempt → isTransient (outcome i) = true) :
    ∀ (fuel a : Nat) (lastExc : Bool), a + fuel = retries + 1 → a ≤ attempt →
      (sleepsOf (requestGo outcome retries a fuel lastExc).1).get? (attempt - a)
        = some (retryWaitSecs attempt ra) := by
  intro fuel
  induction fuel with
  | zero => intro a lastExc hsum hle; omega
  | succ n ih =>
    intro a lastExc hsum hle
    by_cases ha : a = attempt
    · subst ha
      have hnok : ¬ s < 400 := retry_status_not_ok hs
      have heq : requestGo outcome retries a (n + 1) lastExc =
          (GEvent.acquire :: GEvent.httpAttempt a ::
            GEvent.sleep (retryWaitSecs a ra) ::
            (requestGo outcome retries (a + 1) n lastExc).1,
            (requestGo outcome retries (a + 1) n lastExc).2) := by
        simp only [requestGo, hout]
        rw [if_neg hnok, if_pos (And.intro hs hlt)]
        rfl
      rw [heq]
      simp
    · have halt : a < attempt := by omega
      have haretries : a < retries := by omega
      have htr := hPrev a halt
      have hidx : attempt - a = (attempt - (a + 1)) + 1 := by omega
      cases hout2 : outcome a with
      | transport =>
        have heq : requestGo outcome retries a (n + 1) lastExc =
            (GEvent.acquire :: GEvent.httpAttempt a ::
              GEvent.sleep ((2 ^ a : ℕ) : ℚ) ::
              (requestGo outcome retries (a + 1) n true).1,
              (requestGo outcome retries (a + 1) n true).2) := by
          simp [requestGo, hout2, haretries]
        rw [heq]
        have := ih (a + 1) true (by omega) (by omega)
        simpa [hidx] using this
      | response s2 ra2 =>
        rw [hout2] at htr
        have hmem2 : s2 ∈ RETRY_STATUS_CODES := by simpa [isTransient] using htr
        have hnok2 : ¬ s2 < 400 := retry_status_not_ok hmem2
        have heq : requestGo outcome retries a (n + 1) lastExc =
            (GEvent.acquire :: GEvent.httpAttempt a ::
              GEvent.sleep (retryWaitSecs a ra2) ::
              (requestGo outcome retries (a + 1) n lastExc).1,
              (requestGo outcome retries (a + 1) n lastExc).2) := by
          simp only [requestGo, hout2]
          rw [if_neg hnok2, if_pos (And.intro hmem2 haretries)]
          rfl
        rw [heq]
        have := ih (a + 1) lastExc (by omega) (by omega)
        simpa [hidx] using this

/-- C6 (amended).  When the attempt reached after a prefix of transient
failures gets a retryable response (429/5xx in the retry set) and a
retry remains, the gateway's next backoff sleep is exactly the
`Retry-After` value in seconds when that header value is a nonempty
all-digit string, and `2 ^ attempt` seconds otherwise (header absent,
empty, non-integer such as `2.5`, or an HTTP-date). -/
theorem gateway_backoff_amended (outcome : Nat → AttemptOutcome)
    (retries attempt : Nat) (s : Nat) (ra : Option String)
    (hout : outcome attempt = .response s ra)
    (hs : s ∈ RETRY_STATUS_CODES) (hlt : attempt < retries)
    (hPrev : ∀ i, i < attempt → isTransient (outcome i) = true) :
    (sleepsOf (hubRequest true outcome retries).1).get? attempt
      = some (if (ra.getD "") != "" && pyIsDigit (ra.getD "")
          then ((pyStrToNat (ra.getD "") : ℕ) : ℚ)
          else ((2 ^ attempt : ℕ) : ℚ)) := by
  have h := requestGo_sleep_at outcome retries attempt s ra hout hs hlt hPrev
    (retries + 1) 0 false (by omega) (by omega)
  have hr : retryWaitSecs attempt ra
      = (if (ra.getD "") != "" && pyIsDigit (ra.getD "")
          then ((pyStrToNat (ra.getD "") : ℕ) : ℚ)
          else ((2 ^ attempt : ℕ) : ℚ)) := by
    cases ra with
    | none => simp [retryWaitSecs, pyIsDigit]
    | some r => simp [retryWaitSecs]
  rw [hr] at h
  simpa [hubRequest] using h

/-- Witness for `gateway_backoff_amended`: after one transient 500, a
429 carrying `Retry-After: 7` makes the second backoff sleep exactly
7 seconds. -/
theorem gateway_backoff_amended_witness :
    (sleepsOf (hubRequest true
        (fun i => if i = 0 then AttemptOutcome.response 500 none
          else if i = 1 then AttemptOutcome.response 429 (some "7")
          else AttemptOutcome.response 200 none)
        DEFAULT_MAX_RETRIES).1).get? 1 = some (7 : ℚ) := by
  have h := gateway_backoff_amended
    (fun i => if i = 0 then AttemptOutcome.response 500 none
      else if i = 1 then AttemptOutcome.response 429 (some "7")
      else AttemptOutcome.response 200 none)
    DEFAULT_MAX_RETRIES 1 429 (some "7") (by decide) (by decide) (by decide)
    (by decide)
  exact h.trans (by decide)

/-! ### Batch association resolvers

Embeds `HubSpotService.batch_read_task_associations` (lines 456-493)
and `HubSpotService.batch_read_contact_company_ids` (lines 750-780).
The remote batch-association endpoint is an oracle from the request
payload (the list of ids in `inputs`) to a response; the embeddings
also return the list of payloads of the batch calls they issued.
Python dicts keyed by strings are association lists with
insert-or-replace semantics (`dictInsert`). -/

structure AssocTo where
  toObjectId : Option String
  id : Option String
deriving Repr, DecidableEq

structure AssocEntry where
  fromId : Option String
  toRefs : List AssocTo
deriving Repr, DecidableEq

structure AssocResponse where
  results : List AssocEntry
deriving Repr, DecidableEq

def dictInsert {α : Type} (m : List (String × α)) (k : String) (v : α) :
    List (String × α) :=
  if m.any (fun p => p.1 == k) then
    m.map (fun p => if p.1 == k then (k, v) else p)
  else m ++ [(k, v)]

def dictLookup {α : Type} (m : List (String × α)) (k : String) : Option α :=
  (m.find? (fun p => p.1 == k)).map (·.2)

def dictKeys {α : Type} (m : List (String × α)) : List String := m.map (·.1)

/-- Lines 488-491: collect `str(t["id"])` for the entries of the `to`
list whose `id` is truthy, preserving the remote-returned order. -/
def parseToIds (ts : List AssocTo) : List String :=
  ts.filterMap fun t =>
    match t.id with
    | some s => if s = "" then none else some s
    | none => none

/-- The result-building loop of `batch_read_task_associations`
(lines 482-492): one dict entry per response row with a non-`None`
`from.id`, mapped to the full ordered id list. -/
def taskAssocFold (results : List AssocEntry) : List (String × List String) :=
  results.foldl
    (fun acc r =>
      match r.fromId with
      | some f => dictInsert acc f (parseToIds r.toRefs)
      | none => acc)
    []

/-- `batch_read_task_associations`: empty input short-circuits with no
call; otherwise `ids = task_ids[:100]` and a single POST, whose parsed
result (or error) is returned together with the issued payloads. -/
def batch_read_task_associations
    (oracle : List String → Except HSErr AssocResponse) (task_ids : List String) :
    Except HSErr (List (String × List String)) × List (List String) :=
  if task_ids.isEmpty then (.ok [], [])
  else
    let ids := task_ids.take 100
    match oracle ids with
    | .error e => (.error e, [ids])
    | .ok data => (.ok (taskAssocFold data.results), [ids])

/-- Python truthy `a or b` over optional strings
(`first_to.get("toObjectId") or first_to.get("id")`). -/
def truthyOrOpt (a b : Option String) : Option String :=
  match a with
  | some s => if s = "" then b else some s
  | none => b

/-- The result-building loop of `batch_read_contact_company_ids`
(lines 769-780): for each row with a non-`None` `from.id` and a
nonempty `to` list, keep only the FIRST to-entry's id. -/
def contactCompanyFold (results : List AssocEntry) : List (String × String) :=
  results.foldl
    (fun acc r =>
      match r.fromId with
      | some f =>
        match r.toRefs with
        | [] => acc
        | first :: _ =>
          match truthyOrOpt first.toObjectId first.id with
          | some toId => dictInsert acc f toId
          | none => acc
      | none => acc)
    []

/-- `batch_read_contact_company_ids`: empty input short-circuits;
otherwise `contact_ids[:100]` and a single POST. -/
def batch_read_contact_company_ids
    (oracle : List String → Except HSErr AssocResponse) (contact_ids : List String) :
    Except HSErr (List (String × String)) × List (List String) :=
  if contact_ids.isEmpty then (.ok [], [])
  else
    let ids := contact_ids.take 100
    match oracle ids with
    | .error e => (.error e, [ids])
    | .ok data => (.ok (contactCompanyFold data.results), [ids])

/-- 150 distinct contact/task ids. -/
def ids150 : List String :=
  (List.range 150).map (fun i => String.mk (List.replicate i (Char.ofNat 97)))

/-- A remote that resolves every requested id to one association. -/
def echoAssocOracle : List String → Except HSErr AssocResponse :=
  fun ids => .ok ⟨ids.map (fun i => ⟨some i, [⟨none, some (String.append i "x")⟩]⟩)⟩

/-- Generic form of the two result-building loops: each response row
either contributes one dict insertion or is skipped. -/
def assocFold {α : Type} (keyval : AssocEntry → Option (String × α))
    (results : List AssocEntry) (acc : List (String × α)) : List (String × α) :=
  results.foldl
    (fun acc r =>
      match keyval r with
      | some kv => dictInsert acc kv.1 kv.2
      | none => acc)
    acc

def keyvalTask (r : AssocEntry) : Option (String × List String) :=
  r.fromId.map (fun f => (f, parseToIds r.toRefs))

def keyvalContactCompany (r : AssocEntry) : Option (String × String) :=
  match r.fromId with
  | some f =>
    match r.toRefs with
    | [] => none
    | first :: _ => (truthyOrOpt first.toObjectId first.id).map (fun t => (f, t))
  | none => none

lemma taskAssocFold_eq_assocFold (results : List AssocEntry) :
    taskAssocFold results = assocFold keyvalTask results [] := by
  unfold taskAssocFold assocFold
  apply List.foldl_ext
  intro acc r _
  cases h : r.fromId <;> simp [keyvalTask, h]

lemma contactCompanyFold_eq_assocFold (results : List AssocEntry) :
    contactCompanyFold results = assocFold keyvalContactCompany results [] := by
  unfold contactCompanyFold assocFold
  apply List.foldl_ext
  intro acc r _
  cases hf : r.fromId with
  | none => simp [keyvalContactCompany, hf]
  | some f =>
    cases ht : r.toRefs with
    | nil => simp [keyvalContactCompany, hf, ht]
    | cons first rest =>
      cases hor : truthyOrOpt first.toObjectId first.id <;>
        simp [keyvalContactCompany, hf, ht, hor]

lemma dictKeys_dictInsert {α : Type} (m : List (String × α)) (k : String) (v : α) :
    ∀ x ∈ dictKeys (dictInsert m k v), x ∈ dictKeys m ∨ x = k := by
  intro x hx
  unfold dictInsert at hx
  by_cases h : m.any (fun p => p.1 == k)
  · rw [if_pos h] at hx
    unfold dictKeys at hx ⊢
    rw [List.map_map] at hx
    obtain ⟨q, hq, hqx⟩ := List.mem_map.1 hx
    by_cases hqk : q.1 == k
    · right
      simp only [Function.comp, if_pos hqk] at hqx
      exact hqx.symm
    · left
      simp only [Function.comp, if_neg hqk] at hqx
      exact List.mem_map.2 ⟨q, hq, hqx⟩
  · rw [if_neg h] at hx
    unfold dictKeys at hx ⊢
    rw [List.map_append] at hx
    rcases List.mem_append.1 hx with h1 | h1
    · exact Or.inl h1
    · right; simpa using h1

lemma dictLookup_dictInsert_self {α : Type} (m : List (String × α)) (k : String) (v : α) :
    dictLookup (dictInsert m k v) k = some v := by
  unfold dictLookup dictInsert
  by_cases h : m.any (fun p => p.1 == k)
  · rw [if_pos h, List.find?_map]
    have hcomp : ((fun p : String × α => p.1 == k) ∘
          (fun p => if p.1 == k then (k, v) else p))
        = (fun p : String × α => p.1 == k) := by
      funext q
      by_cases hq : (q.1 == k) = true
      · simp [Function.comp, hq]
      · simp [Function.comp, hq]
    rw [hcomp]
    obtain ⟨x, hx, hpx⟩ := List.any_eq_true.1 h
    obtain ⟨p0, hf⟩ := Option.isSome_iff_exists.1
      ((List.find?_isSome (p := fun p : String × α => p.1 == k)).2 ⟨x, hx, hpx⟩)
    have hp0 : (p0.1 == k) = true :=
      List.find?_some (p := fun p : String × α => p.1 == k) hf
    rw [hf]
    have hpk : p0.1 = k := by simpa using hp0
    simp [hpk]
  · rw [if_neg h, List.find?_append]
    have hmn : m.find? (fun p => p.1 == k) = none :=
      List.find?_eq_none.2 (fun x hx hpx => h (List.any_eq_true.2 ⟨x, hx, hpx⟩))
    rw [hmn]
    simp

lemma dictLookup_dictInsert_other {α : Type} (m : List (String × α)) (k k2 : String)
    (v : α) (hne : k2 ≠ k) :
    dictLookup (dictInsert m k v) k2 = dictLookup m k2 := by
  have hkne : ¬ k = k2 := fun he => hne he.symm
  unfold dictLookup dictInsert
  by_cases h : m.any (fun p => p.1 == k)
  · rw [if_pos h, List.find?_map]
    have hcomp : ((fun p : String × α => p.1 == k2) ∘
          (fun p => if p.1 == k then (k, v) else p))
        = (fun p : String × α => p.1 == k2) := by
      funext q
      by_cases hq : (q.1 == k) = true
      · have hq2 : q.1 = k := by simpa using hq
        simp [Function.comp, hq, hq2, hkne]
      · simp [Function.comp, hq]
    rw [hcomp]
    cases hf : m.find? (fun p => p.1 == k2) with
    | none => rfl
    | some p0 =>
      have hp0 : (p0.1 == k2) = true :=
        List.find?_some (p := fun p : String × α => p.1 == k2) hf
      have hp0k : ¬ p0.1 = k := by
        have h2 : p0.1 = k2 := by simpa using hp0
        rw [h2]
        exact hne
      simp [hp0k]
  · rw [if_neg h, List.find?_append]
    have hsing : List.find? (fun p : String × α => p.1 == k2) [(k, v)] = none := by
      simp [hkne]
    rw [hsing, Option.or_none]

lemma assocFold_keys_subset {α : Type} (keyval : AssocEntry → Option (String × α)) :
    ∀ (results : List AssocEntry) (acc : List (String × α)),
      ∀ x ∈ dictKeys (assocFold keyval results acc),
        x ∈ dictKeys acc ∨ ∃ r ∈ results, ∃ v, keyval r = some (x, v) := by
  intro results
  induction results with
  | nil => intro acc x hx; exact Or.inl hx
  | cons r rest ih =>
    intro acc x hx
    unfold assocFold at hx
    rw [List.foldl_cons] at hx
    cases hkv : keyval r with
    | none =>
      rw [hkv] at hx
      rcases ih acc x hx with h | ⟨r2, hr2, v, hv⟩
      · exact Or.inl h
      · exact Or.inr ⟨r2, List.mem_cons_of_mem r hr2, v, hv⟩
    | some kv =>
      rw [hkv] at hx
      rcases ih (dictInsert acc kv.1 kv.2) x hx with h | ⟨r2, hr2, v, hv⟩
      · rcases dictKeys_dictInsert acc kv.1 kv.2 x h with h2 | h2
        · exact Or.inl h2
        · exact Or.inr ⟨r, List.mem_cons_self r rest, kv.2, by rw [hkv, h2]⟩
      · exact Or.inr ⟨r2, List.mem_cons_of_mem r hr2, v, hv⟩

lemma assocFold_lookup_not_mem {α : Type} (keyval : AssocEntry → Option (String × α))
    (f : String) :
    ∀ (results : List AssocEntry) (acc : List (String × α)),
      (∀ r ∈ results, ∀ v, keyval r ≠ some (f, v)) →
      dictLookup (assocFold keyval results acc) f = dictLookup acc f := by
  intro results
  induction results with
  | nil => intro acc _; rfl
  | cons r rest ih =>
    intro acc hno
    unfold assocFold
    rw [List.foldl_cons]
    cases hkv : keyval r with
    | none => exact ih acc (fun r2 hr2 => hno r2 (List.mem_cons_of_mem r hr2))
    | some kv =>
      have : dictLookup (assocFold keyval rest (dictInsert acc kv.1 kv.2)) f
          = dictLookup (dictInsert acc kv.1 kv.2) f :=
        ih (dictInsert acc kv.1 kv.2) (fun r2 hr2 => hno r2 (List.mem_cons_of_mem r hr2))
      rw [show (List.foldl _ (dictInsert acc kv.1 kv.2) rest) = assocFold keyval rest (dictInsert acc kv.1 kv.2) from rfl]
      rw [this]
      apply dictLookup_dictInsert_other
      intro he
      subst he
      exact hno r (List.mem_cons_self r rest) kv.2 (by rw [hkv])

/-- Keys produced by the fold, in the order the corresponding rows are
first seen. -/
def foldKeysOf {α : Type} (keyval : AssocEntry → Option (String × α))
    (results : List AssocEntry) : List String :=
  results.filterMap (fun r => (keyval r).map (·.1))

lemma assocFold_lookup_of_mem {α : Type} (keyval : AssocEntry → Option (String × α)) :
    ∀ (results : List AssocEntry) (acc : List (String × α)) (e : AssocEntry)
      (f : String) (v : α),
      (foldKeysOf keyval results).Nodup →
      e ∈ results → keyval e = some (f, v) →
      dictLookup (assocFold keyval results acc) f = some v := by
  intro results
  induction results with
  | nil => intro acc e f v _ he; simp at he
  | cons r rest ih =>
    intro acc e f v hnd he hkv
    have hnd2 : (foldKeysOf keyval rest).Nodup := by
      unfold foldKeysOf at hnd ⊢
      rw [List.filterMap_cons] at hnd
      cases hr : keyval r with
      | none => simpa [hr] using hnd
      | some kv =>
        simp only [hr, Option.map_some'] at hnd
        exact (List.nodup_cons.1 hnd).2
    rcases List.mem_cons.1 he with rfl | he2
    · unfold assocFold
      rw [List.foldl_cons, hkv]
      rw [show (List.foldl _ (dictInsert acc f v) rest) = assocFold keyval rest (dictInsert acc f v) from rfl]
      rw [assocFold_lookup_not_mem keyval f rest (dictInsert acc f v) ?_]
      · exact dictLookup_dictInsert_self acc f v
      · intro r2 hr2 v2 hkv2
        unfold foldKeysOf at hnd
        rw [List.filterMap_cons] at hnd
        simp only [hkv, Option.map_some'] at hnd
        have : f ∈ rest.filterMap (fun r => (keyval r).map (·.1)) :=
          List.mem_filterMap.2 ⟨r2, hr2, by rw [hkv2]; rfl⟩
        exact (List.nodup_cons.1 hnd).1 this
    · unfold assocFold
      rw [List.foldl_cons]
      cases hr : keyval r with
      | none => exact ih acc e f v hnd2 he2 hkv
      | some kv =>
        have hne : kv.1 ≠ f := by
          intro he3
          unfold foldKeysOf at hnd
          rw [List.filterMap_cons] at hnd
          simp only [hr, Option.map_some'] at hnd
          have : f ∈ rest.filterMap (fun r => (keyval r).map (·.1)) :=
            List.mem_filterMap.2 ⟨e, he2, by rw [hkv]; rfl⟩
          rw [he3] at hnd
          exact (List.nodup_cons.1 hnd).1 this
        exact ih (dictInsert acc kv.1 kv.2) e f v hnd2 he2 hkv

deriving instance DecidableEq for Except

set_option maxRecDepth 1000000 in
/-- C2 (counterexample).  Over 150 ids that all resolve, the batch
association resolver issues exactly 1 underlying call (not 2) and
returns a map with exactly 100 keys (not 150): `task_ids[:100]`
truncates the input, and no second chunk is ever requested. -/
theorem resolver_chunking_violated :
    (batch_read_task_associations echoAssocOracle ids150).2.length = 1 ∧
    ((batch_read_task_associations echoAssocOracle ids150).1.toOption.getD []).length
      = 100 :=
  ⟨by decide, by decide⟩

/-- C2 (amended).  For every nonempty input, the resolver issues
exactly one underlying batch call whose payload is the first (at most)
100 ids — ids beyond 100 are never requested and there is no chunking
or merging — and every key of the returned map originates from a
response row, so a remote that answers only the requested ids produces
at most 100 keys, all among the first 100 input ids. -/
theorem resolver_truncates_amended
    (oracle : List String → Except HSErr AssocResponse) (task_ids : List String)
    (hne : task_ids ≠ []) :
    (batch_read_task_associations oracle task_ids).2 = [task_ids.take 100] ∧
    (∀ resp m, oracle (task_ids.take 100) = .ok resp →
      (batch_read_task_associations oracle task_ids).1 = .ok m →
      ∀ k ∈ dictKeys m, ∃ r ∈ resp.results, r.fromId = some k) := by
  have hni : ¬ task_ids.isEmpty = true := by
    simpa [List.isEmpty_iff] using hne
  constructor
  · unfold batch_read_task_associations
    rw [if_neg hni]
    cases h2 : oracle (task_ids.take 100) with
    | error e => simp [h2]
    | ok data => simp [h2]
  · intro resp m hresp hm k hk
    unfold batch_read_task_associations at hm
    rw [if_neg hni] at hm
    simp only [hresp] at hm
    have hm2 : m = taskAssocFold resp.results := by simpa using hm.symm
    subst hm2
    rw [taskAssocFold_eq_assocFold] at hk
    rcases assocFold_keys_subset keyvalTask resp.results [] k hk with h0 | ⟨r, hr, v, hkv⟩
    · simp [dictKeys] at h0
    · refine ⟨r, hr, ?_⟩
      unfold keyvalTask at hkv
      cases hfr : r.fromId with
      | none => rw [hfr] at hkv; simp at hkv
      | some f2 =>
        rw [hfr] at hkv
        simp only [Option.map_some'] at hkv
        have h3 : f2 = k := congrArg Prod.fst (Option.some.inj hkv)
        exact congrArg some h3

/-- Witness for `resolver_truncates_amended` on a two-id input: the
single issued call carries both ids. -/
theorem resolver_truncates_amended_witness :
    (batch_read_task_associations echoAssocOracle ["a", "b"]).2 = [["a", "b"]] :=
  ((resolver_truncates_amended echoAssocOracle ["a", "b"] (by decide)).1).trans
    (by decide)

/-- C9 (counterexample).  When the remote reports contact "c1"
associated with companies "x" then "y", `batch_read_contact_company_ids`
returns only the FIRST company id for "c1": the first-wins choice is
made inside this resolver (line 775, `to_list[0]`), and the full
ordered sequence is not returned. -/
theorem contact_resolver_first_wins_inside :
    (batch_read_contact_company_ids
      (fun _ => .ok ⟨[⟨some "c1", [⟨some "x", none⟩, ⟨some "y", none⟩]⟩]⟩)
      ["c1"]).1 = .ok [("c1", "x")] := by
  decide

/-- C9 (amended).  The task-association resolver returns, for every
resolved from-id, the full sequence of associated to-ids preserving
the remote-returned order (no singularity assumption); the
contact-to-company resolver instead applies the first-wins convention
internally, returning only the first to-id of each contact's
association list. -/
theorem resolver_order_amended :
    (∀ (oracle : List String → Except HSErr AssocResponse) (task_ids : List String)
        (resp : AssocResponse) (e : AssocEntry) (f : String)
        (m : List (String × List String)),
        task_ids ≠ [] →
        oracle (task_ids.take 100) = .ok resp →
        (foldKeysOf keyvalTask resp.results).Nodup →
        e ∈ resp.results → e.fromId = some f →
        (batch_read_task_associations oracle task_ids).1 = .ok m →
        dictLookup m f = some (parseToIds e.toRefs)) ∧
    (∀ (oracle : List String → Except HSErr AssocResponse) (contact_ids : List String)
        (resp : AssocResponse) (e : AssocEntry) (f tid : String)
        (first : AssocTo) (rest : List AssocTo) (m : List (String × String)),
        contact_ids ≠ [] →
        oracle (contact_ids.take 100) = .ok resp →
        (foldKeysOf keyvalContactCompany resp.results).Nodup →
        e ∈ resp.results → e.fromId = some f →
        e.toRefs = first :: rest →
        truthyOrOpt first.toObjectId first.id = some tid →
        (batch_read_contact_company_ids oracle contact_ids).1 = .ok m →
        dictLookup m f = some tid) := by
  constructor
  · intro oracle task_ids resp e f m hne hresp hnd he hf hm
    have hni : ¬ task_ids.isEmpty = true := by simpa [List.isEmpty_iff] using hne
    unfold batch_read_task_associations at hm
    rw [if_neg hni] at hm
    simp only [hresp] at hm
    have hm2 : m = taskAssocFold resp.results := by simpa using hm.symm
    subst hm2
    rw [taskAssocFold_eq_assocFold]
    exact assocFold_lookup_of_mem keyvalTask resp.results [] e f (parseToIds e.toRefs)
      hnd he (by simp [keyvalTask, hf])
  · intro oracle contact_ids resp e f tid first rest m hne hresp hnd he hf hto hor hm
    have hni : ¬ contact_ids.isEmpty = true := by simpa [List.isEmpty_iff] using hne
    unfold batch_read_contact_company_ids at hm
    rw [if_neg hni] at hm
    simp only [hresp] at hm
    have hm2 : m = contactCompanyFold resp.results := by simpa using hm.symm
    subst hm2
    rw [contactCompanyFold_eq_assocFold]
    exact assocFold_lookup_of_mem keyvalContactCompany resp.results [] e f tid
      hnd he (by simp [keyvalContactCompany, hf, hto, hor])

/-- Witness for `resolver_order_amended`: the task resolver maps "a" to
its full to-id list, and the contact resolver maps "c2" to only the
first of its two company ids. -/
theorem resolver_order_amended_witness :
    dictLookup [("a", ["ax"])] "a" = some ["ax"] ∧
    dictLookup [("c2", "u")] "c2" = some "u" := by
  constructor
  · have h := resolver_order_amended.1 echoAssocOracle ["a"]
      ⟨[⟨some "a", [⟨none, some "ax"⟩]⟩]⟩ ⟨some "a", [⟨none, some "ax"⟩]⟩ "a"
      [("a", ["ax"])] (by decide) (by decide) (by decide) (by decide) (by decide)
      (by decide)
    exact h.trans (by decide)
  · have h := resolver_order_amended.2
      (fun _ => .ok ⟨[⟨some "c2", [⟨some "u", none⟩, ⟨some "w", none⟩]⟩]⟩) ["c2"]
      ⟨[⟨some "c2", [⟨some "u", none⟩, ⟨some "w", none⟩]⟩]⟩
      ⟨some "c2", [⟨some "u", none⟩, ⟨some "w", none⟩]⟩ "c2" "u"
      ⟨some "u", none⟩ [⟨some "w", none⟩] [("c2", "u")]
      (by decide) (by decide) (by decide) (by decide) (by decide) (by decide)
      (by decide) (by decide)
    exact h

/-! ### Cursor pagination

Embeds the `while True` pagination loop that appears verbatim in
`list_contacts` (endpoints/contacts.py lines 114-123), `list_activities`
(endpoints/activities.py lines 260-274) and `sync_activities`
(lines 366-379): fetch a page for the current cursor, extend the
accumulator, take the next cursor from `paging.next.after`, and
`break` when `not after or not results`.  `fuel` bounds the unbounded
Python loop; `none` means the loop would still be running after `fuel`
iterations. -/

structure HPage (α : Type) where
  results : List α
  nextAfter : Option String
deriving Repr, DecidableEq

/-- Python falsy test `not after` (`None` or the empty string). -/
def afterFalsy : Option String → Bool
  | none => true
  | some s => s == ""

def fetchAllGo {α : Type} (pages : Option String → Except HSErr (HPage α)) :
    Option String → List α → List (Option String) → Nat →
    Option (Except HSErr (List α) × List (Option String))
  | _, _, _, 0 => none
  | after, acc, calls, fuel + 1 =>
    match pages after with
    | .error e => some (.error e, calls ++ [after])
    | .ok p =>
      if afterFalsy p.nextAfter || p.results.isEmpty then
        some (.ok (acc ++ p.results), calls ++ [after])
      else fetchAllGo pages p.nextAfter (acc ++ p.results) (calls ++ [after]) fuel

def fetchAll {α : Type} (pages : Option String → Except HSErr (HPage α)) (fuel : Nat) :
    Option (Except HSErr (List α) × List (Option String)) :=
  fetchAllGo pages none [] [] fuel

/-- Three pages of 100, 100 and 40 records with cursors A, B, then
none. -/
def pages3 : Option String → Except HSErr (HPage Nat) :=
  fun c =>
    if c = none then .ok ⟨List.range 100, some "A"⟩
    else if c = some "A" then .ok ⟨(List.range 100).map (fun i => i + 100), some "B"⟩
    else if c = some "B" then .ok ⟨(List.range 40).map (fun i => i + 200), none⟩
    else .error .unexpectedFall

lemma fetchAllGo_stop_iff {α : Type} (pages : Option String → Except HSErr (HPage α)) :
    ∀ (fuel : Nat) (after : Option String) (acc : List α)
      (calls : List (Option String)) (res : List α) (cs : List (Option String)),
      fetchAllGo pages after acc calls fuel = some (.ok res, cs) →
      ∃ tail, cs = calls ++ tail ∧ tail ≠ [] ∧ tail.head? = some after ∧
        ∀ i (h : i < tail.length), ∃ p, pages (tail.get ⟨i, h⟩) = .ok p ∧
          ((afterFalsy p.nextAfter || p.results.isEmpty) = true ↔ i = tail.length - 1) := by
  intro fuel
  induction fuel with
  | zero => intro after acc calls res cs h; simp [fetchAllGo] at h
  | succ n ih =>
    intro after acc calls res cs h
    unfold fetchAllGo at h
    cases hp : pages after with
    | error e => rw [hp] at h; simp at h
    | ok p =>
      rw [hp] at h
      dsimp only at h
      by_cases hstop : (afterFalsy p.nextAfter || p.results.isEmpty) = true
      · rw [if_pos hstop] at h
        have hcs : cs = calls ++ [after] := by
          have h2 := congrArg Prod.snd (Option.some.inj h)
          exact h2.symm
        refine ⟨[after], hcs, by simp, by simp, ?_⟩
        intro i hi
        have hi0 : i = 0 := by simpa using Nat.lt_one_iff.1 (by simpa using hi)
        subst hi0
        exact ⟨p, by simpa using hp, by simpa using hstop⟩
      · rw [if_neg hstop] at h
        obtain ⟨tail2, hcs, hne2, hhd2, hprop⟩ :=
          ih p.nextAfter (acc ++ p.results) (calls ++ [after]) res cs h
        refine ⟨after :: tail2, by simpa using hcs, by simp, by simp, ?_⟩
        intro i hi
        cases i with
        | zero =>
          refine ⟨p, by simpa using hp, ?_⟩
          constructor
          · intro hh; exact absurd hh hstop
          · intro hh
            exfalso
            have : tail2.length ≠ 0 := fun h0 => hne2 (List.length_eq_zero.1 h0)
            simp only [List.length_cons] at hh
            omega
        | succ j =>
          have hj : j < tail2.length := by
            simp only [List.length_cons] at hi
            omega
          obtain ⟨p2, hp2, hiff2⟩ := hprop j hj
          refine ⟨p2, ?_, ?_⟩
          · simpa using hp2
          · have : tail2.length ≠ 0 := fun h0 => hne2 (List.length_eq_zero.1 h0)
            constructor
            · intro hh
              have := hiff2.1 hh
              simp only [List.length_cons]
              omega
            · intro hh
              apply hiff2.2
              simp only [List.length_cons] at hh
              omega

set_option maxRecDepth 1000000 in
/-- C8.  The full-collection fetch over three pages of sizes 100, 100
and 40 (cursors A, B, then none) returns exactly the 240 records
concatenated in page order and performs exactly 3 underlying calls
(with cursors none, A, B); and in general, for every completed run,
the loop terminates exactly at the first call whose returned cursor is
falsy or whose returned page is empty — every earlier call fails that
condition, the last call satisfies it. -/
theorem pagination_fetch_all :
    fetchAll pages3 1000
      = some (.ok (List.range 240), [none, some "A", some "B"]) ∧
    (∀ (α : Type) (pages : Option String → Except HSErr (HPage α)) (fuel : Nat)
        (res : List α) (cs : List (Option String)),
        fetchAll pages fuel = some (.ok res, cs) →
        cs ≠ [] ∧
        ∀ i (h : i < cs.length), ∃ p, pages (cs.get ⟨i, h⟩) = .ok p ∧
          ((afterFalsy p.nextAfter || p.results.isEmpty) = true ↔ i = cs.length - 1)) := by
  constructor
  · decide
  · intro α pages fuel res cs h
    obtain ⟨tail, hcs, hne, _, hprop⟩ := fetchAllGo_stop_iff pages fuel none [] [] res cs h
    rw [List.nil_append] at hcs
    subst hcs
    exact ⟨hne, hprop⟩

/-- Witness for `pagination_fetch_all`: the concrete three-page run
satisfies the termination characterization, its hypothesis discharged
by the first conjunct. -/
theorem pagination_fetch_all_witness :
    ([none, some "A", some "B"] : List (Option String)) ≠ [] :=
  (pagination_fetch_all.2 Nat pages3 1000 (List.range 240) [none, some "A", some "B"]
    pagination_fetch_all.1).1

/-! ### Unified contact search

Embeds `search_contacts` (endpoints/contacts.py lines 215-321) and the
pieces of `HubSpotService` it calls: `get_contacts_batch` (lines
523-550), `get_companies_batch` (lines 782-809) and
`batch_read_contact_company_ids` (embedded above).  Search results,
association lookups and batch reads come from a `SearchRemote` oracle;
the endpoint returns the merged contact list and the trace of remote
calls.  The Supabase cache upserts in this endpoint do not influence
the response and are not modelled. -/

inductive CallEv where
  | searchContactsCall
  | searchCompaniesCall
  | contactsBatchCall (ids : List String)
  | companiesBatchCall (ids : List String)
  | contactCompanyAssocCall (ids : List String)
  | companyContactsCall (companyId : String)
  | listTasksCall (after : Option String)
deriving Repr, DecidableEq

structure HContact where
  id : Option String
  properties : List (String × Option String)
  createdAt : Option String
  updatedAt : Option String
deriving Repr, DecidableEq

structure HCompany where
  id : Option String
  properties : List (String × Option String)
deriving Repr, DecidableEq

structure Contact where
  id : String
  hubspot_id : String
  email : Option String
  first_name : Option String
  last_name : Option String
  company_id : Option String
  company_name : Option String
  phone : Option String
  mobile_phone : Option String
  job_title : Option String
  relationship_status : Option String
  notes : Option String
  created_at : Option String
  updated_at : Option String
deriving Repr, DecidableEq

/-- `props.get(key)`: `None` when the key is absent (values themselves
may be null). -/
def propGet (props : List (String × Option String)) (k : String) : Option String :=
  match dictLookup props k with
  | some v => v
  | none => none

/-- Python truthy filter on an optional string (`if hc.get("id")`). -/
def truthyStr : Option String → Option String
  | some s => if s = "" then none else some s
  | none => none

/-- Python `x or default` for an optional string against a string
default. -/
def pyOrDefault (o : Option String) (d : String) : String :=
  match o with
  | some s => if s = "" then d else s
  | none => d

/-- `list(dict.fromkeys(xs))`: first occurrences, in order. -/
def pyDedupGo (seen : List String) : List String → List String
  | [] => []
  | x :: xs => if x ∈ seen then pyDedupGo seen xs else x :: pyDedupGo (x :: seen) xs

def pyDedup (l : List String) : List String := pyDedupGo [] l

/-- `_hubspot_contact_to_contact` (contacts.py lines 36-59). -/
def hubspotContactToContact (hc : HContact)
    (company_name company_id : Option String) : Contact :=
  let cid := hc.id.getD ""
  { id := cid
    hubspot_id := cid
    email := propGet hc.properties "email"
    first_name := propGet hc.properties "firstname"
    last_name := propGet hc.properties "lastname"
    company_id := company_id
    company_name := company_name
    phone := propGet hc.properties "phone"
    mobile_phone := propGet hc.properties "mobilephone"
    job_title := propGet hc.properties "jobtitle"
    relationship_status := propGet hc.properties "relationship_status"
    notes := propGet hc.properties "notes"
    created_at := hc.createdAt
    updated_at := hc.updatedAt }

structure SearchRemote where
  searchContactsResult : Except HSErr (List HContact)
  searchCompaniesResult : Except HSErr (List HCompany)
  assocOracle : List String → Except HSErr AssocResponse
  companiesBatchOracle : List String → Except HSErr (List HCompany)
  companyContactIds : String → Except HSErr (List String)
  contactsBatchOracle : List String → Except HSErr (List HContact)

/-- `HubSpotService.get_contacts_batch`: empty input short-circuits,
otherwise one batch read over `contact_ids[:100]`. -/
def get_contacts_batch (oracle : List String → Except HSErr (List HContact))
    (contact_ids : List String) : Except HSErr (List HContact) × List CallEv :=
  if contact_ids.isEmpty then (.ok [], [])
  else (oracle (contact_ids.take 100), [.contactsBatchCall (contact_ids.take 100)])

/-- `HubSpotService.get_companies_batch`: empty input short-circuits,
otherwise one batch read over `company_ids[:100]`. -/
def get_companies_batch (oracle : List String → Except HSErr (List HCompany))
    (company_ids : List String) : Except HSErr (List HCompany) × List CallEv :=
  if company_ids.isEmpty then (.ok [], [])
  else (oracle (company_ids.take 100), [.companiesBatchCall (company_ids.take 100)])

/-- The enrichment computed by the inner `try` of the direct branch
(lines 232-247): `company_by_contact` maps a contact id to the pair
(company display name, company id).  A `HubSpotServiceError` anywhere
in the block is swallowed and leaves the dict empty, because the dict
is only filled by the final loop of the block. -/
def branch1CompanyByContact (r : SearchRemote) (ids : List String) :
    List (String × (String × String)) × List CallEv :=
  if ids.isEmpty then ([], [])
  else
    let assoc := batch_read_contact_company_ids r.assocOracle ids
    let tr := assoc.2.map CallEv.contactCompanyAssocCall
    match assoc.1 with
    | .error _ => ([], tr)
    | .ok contact_to_company =>
      let unique_company_ids := pyDedup (contact_to_company.map (fun p => p.2))
      if unique_company_ids.isEmpty then ([], tr)
      else
        let cb := get_companies_batch r.companiesBatchOracle unique_company_ids
        match cb.1 with
        | .error _ => ([], tr ++ cb.2)
        | .ok companies_batch =>
          let company_name_by_id := companies_batch.foldl
            (fun acc co =>
              let cid := co.id.getD ""
              dictInsert acc cid (pyOrDefault (propGet co.properties "name") cid))
            []
          let cbc := contact_to_company.foldl
            (fun acc p =>
              dictInsert acc p.1 (pyOrDefault (dictLookup company_name_by_id p.2) p.2, p.2))
            []
          (cbc, tr ++ cb.2)

/-- One step of the direct-branch emission loop (lines 248-261):
skip a result whose id is `None` or already seen, otherwise mark it
seen and emit it (enriched when the inner block resolved a company). -/
def branch1EmitStep (company_by_contact : List (String × (String × String)))
    (st : List Contact × List String) (hc : HContact) : List Contact × List String :=
  match hc.id with
  | none => st
  | some cid =>
    if cid ∈ st.2 then st
    else
      let c := match dictLookup company_by_contact cid with
        | some nc => hubspotContactToContact hc (some nc.1) (some nc.2)
        | none => hubspotContactToContact hc none none
      (st.1 ++ [c], st.2 ++ [cid])

/-- The direct branch (lines 228-265): contact search, company
enrichment, emission with the `seen` set.  A `HubSpotServiceError`
from the search is caught and the branch contributes nothing. -/
def contactSearchBranch (r : SearchRemote) :
    (List Contact × List String) × List CallEv :=
  match r.searchContactsResult with
  | .error _ => (([], []), [.searchContactsCall])
  | .ok c_results =>
    let ids := pyDedup (c_results.filterMap (fun hc => truthyStr hc.id))
    let enr := branch1CompanyByContact r ids
    (c_results.foldl (branch1EmitStep enr.1) ([], []),
      [CallEv.searchContactsCall] ++ enr.2)

/-- State of the derived-branch collection loop (lines 272-287). -/
structure B2State where
  triples : List (String × String × String)
  seen : List String
  trace : List CallEv
deriving Repr, DecidableEq

/-- Inner loop over one company's associated contact ids
(lines 282-285): ids not yet seen are marked seen and collected with
the company's display name and id. -/
def b2CollectIds (cname coid : String) (p : List (String × String × String) × List String)
    (cid : String) : List (String × String × String) × List String :=
  if cid ∈ p.2 then p else (p.1 ++ [(cid, cname, coid)], p.2 ++ [cid])

/-- One step of the company loop (lines 273-287): skip companies with a
falsy id; fetch the company's contact ids, swallowing a per-company
`HubSpotServiceError`. -/
def b2CompanyStep (r : SearchRemote) (st : B2State) (co : HCompany) : B2State :=
  match truthyStr co.id with
  | none => st
  | some coid =>
    let cname := pyOrDefault (propGet co.properties "name") coid
    match r.companyContactIds coid with
    | .error _ => { st with trace := st.trace ++ [.companyContactsCall coid] }
    | .ok cids =>
      let p := cids.foldl (b2CollectIds cname coid) (st.triples, st.seen)
      { triples := p.1, seen := p.2, trace := st.trace ++ [.companyContactsCall coid] }

/-- One step of the derived-branch emission loop (lines 296-307): skip
records with a falsy id, emit the rest (enriched when the id was
collected from a company). -/
def b2EmitStep (name_and_company_by_id : List (String × (String × String)))
    (acc : List Contact) (hc : HContact) : List Contact :=
  let cid := hc.id.getD ""
  if cid = "" then acc
  else
    match dictLookup name_and_company_by_id cid with
    | some nc => acc ++ [hubspotContactToContact hc (some nc.1) (some nc.2)]
    | none => acc ++ [hubspotContactToContact hc none none]

/-- The derived branch (lines 268-311), continuing from the direct
branch's output and `seen` set.  A `HubSpotServiceError` from the
company search or the batch contact fetch is caught, leaving the
output as produced so far. -/
def companySearchBranch (r : SearchRemote) (b1 : List Contact × List String) :
    List Contact × List CallEv :=
  match r.searchCompaniesResult with
  | .error _ => (b1.1, [.searchCompaniesCall])
  | .ok companies =>
    let st := companies.foldl (b2CompanyStep r) ⟨[], b1.2, []⟩
    if st.triples.isEmpty then (b1.1, [CallEv.searchCompaniesCall] ++ st.trace)
    else
      let ids_to_fetch := st.triples.map (fun t => t.1)
      let cb := get_contacts_batch r.contactsBatchOracle (ids_to_fetch.take 100)
      match cb.1 with
      | .error _ => (b1.1, [CallEv.searchCompaniesCall] ++ st.trace ++ cb.2)
      | .ok batch =>
        let name_and_company_by_id := st.triples.foldl
          (fun acc t => dictInsert acc t.1 (t.2.1, t.2.2)) []
        (batch.foldl (b2EmitStep name_and_company_by_id) b1.1,
          [CallEv.searchCompaniesCall] ++ st.trace ++ cb.2)

/-- `search_contacts` (GET /contacts/search): direct branch first, then
the derived branch. -/
def search_contacts_endpoint (r : SearchRemote) : List Contact × List CallEv :=
  let b1 := contactSearchBranch r
  let b2 := companySearchBranch r b1.1
  (b2.1, b1.2 ++ b2.2)

lemma branch1_fold_invariant (cbc : List (String × (String × String))) :
    ∀ (l : List HContact) (st : List Contact × List String),
      st.1.map (fun c => c.id) = st.2 → st.2.Nodup →
      (l.foldl (branch1EmitStep cbc) st).1.map (fun c => c.id)
          = (l.foldl (branch1EmitStep cbc) st).2 ∧
        (l.foldl (branch1EmitStep cbc) st).2.Nodup := by
  intro l
  induction l with
  | nil => intro st h1 h2; exact ⟨h1, h2⟩
  | cons hc rest ih =>
    intro st h1 h2
    rw [List.foldl_cons]
    cases hid : hc.id with
    | none =>
      have hstep : branch1EmitStep cbc st hc = st := by
        simp [branch1EmitStep, hid]
      rw [hstep]
      exact ih st h1 h2
    | some cid =>
      by_cases hseen : cid ∈ st.2
      · have hstep : branch1EmitStep cbc st hc = st := by
          simp [branch1EmitStep, hid, hseen]
        rw [hstep]
        exact ih st h1 h2
      · have hstep : (branch1EmitStep cbc st hc).1.map (fun c => c.id) = st.2 ++ [cid]
            ∧ (branch1EmitStep cbc st hc).2 = st.2 ++ [cid] := by
          cases hl : dictLookup cbc cid <;>
            simp [branch1EmitStep, hid, hseen, hl, hubspotContactToContact, h1]
        have hnd : (st.2 ++ [cid]).Nodup := by
          simp [List.nodup_append, h2, hseen]
        have := ih (branch1EmitStep cbc st hc) (hstep.1.trans hstep.2.symm)
          (hstep.2 ▸ hnd)
        exact this

lemma b2CollectIds_invariant (cname coid : String) (seen0 : List String) :
    ∀ (cids : List String) (p : List (String × String × String) × List String),
      (p.1.map (fun t => t.1)).Nodup →
      (∀ c ∈ p.1.map (fun t => t.1), c ∈ p.2) →
      (∀ c ∈ seen0, c ∈ p.2) →
      (∀ c ∈ p.1.map (fun t => t.1), c ∉ seen0) →
      ((cids.foldl (b2CollectIds cname coid) p).1.map (fun t => t.1)).Nodup ∧
      (∀ c ∈ (cids.foldl (b2CollectIds cname coid) p).1.map (fun t => t.1),
          c ∈ (cids.foldl (b2CollectIds cname coid) p).2) ∧
      (∀ c ∈ seen0, c ∈ (cids.foldl (b2CollectIds cname coid) p).2) ∧
      (∀ c ∈ (cids.foldl (b2CollectIds cname coid) p).1.map (fun t => t.1),
          c ∉ seen0) := by
  intro cids
  induction cids with
  | nil => intro p h1 h2 h3 h4; exact ⟨h1, h2, h3, h4⟩
  | cons cid rest ih =>
    intro p h1 h2 h3 h4
    rw [List.foldl_cons]
    by_cases hseen : cid ∈ p.2
    · have hstep : b2CollectIds cname coid p cid = p := by
        simp [b2CollectIds, hseen]
      rw [hstep]
      exact ih p h1 h2 h3 h4
    · have hstep : b2CollectIds cname coid p cid
          = (p.1 ++ [(cid, cname, coid)], p.2 ++ [cid]) := by
        simp [b2CollectIds, hseen]
      rw [hstep]
      refine ih _ ?_ ?_ ?_ ?_
      · have hnotin : cid ∉ p.1.map (fun t => t.1) := fun hin => hseen (h2 cid hin)
        simp [List.nodup_append, h1, hnotin]
      · intro c hc
        rw [List.map_append] at hc
        rcases List.mem_append.1 hc with hcl | hcr
        · exact List.mem_append.2 (Or.inl (h2 c hcl))
        · simp only [List.map_cons, List.map_nil] at hcr
          simp at hcr
          subst hcr
          simp
      · intro c hc
        exact List.mem_append.2 (Or.inl (h3 c hc))
      · intro c hc
        rw [List.map_append] at hc
        rcases List.mem_append.1 hc with hcl | hcr
        · exact h4 c hcl
        · simp at hcr
          subst hcr
          exact fun hin => hseen (h3 _ hin)

lemma b2CompanyFold_invariant (r : SearchRemote) (seen0 : List String) :
    ∀ (companies : List HCompany) (st : B2State),
      (st.triples.map (fun t => t.1)).Nodup →
      (∀ c ∈ st.triples.map (fun t => t.1), c ∈ st.seen) →
      (∀ c ∈ seen0, c ∈ st.seen) →
      (∀ c ∈ st.triples.map (fun t => t.1), c ∉ seen0) →
      ((companies.foldl (b2CompanyStep r) st).triples.map (fun t => t.1)).Nodup ∧
      (∀ c ∈ (companies.foldl (b2CompanyStep r) st).triples.map (fun t => t.1),
          c ∈ (companies.foldl (b2CompanyStep r) st).seen) ∧
      (∀ c ∈ seen0, c ∈ (companies.foldl (b2CompanyStep r) st).seen) ∧
      (∀ c ∈ (companies.foldl (b2CompanyStep r) st).triples.map (fun t => t.1),
          c ∉ seen0) := by
  intro companies
  induction companies with
  | nil => intro st h1 h2 h3 h4; exact ⟨h1, h2, h3, h4⟩
  | cons co rest ih =>
    intro st h1 h2 h3 h4
    rw [List.foldl_cons]
    cases hco : truthyStr co.id with
    | none =>
      have hstep : b2CompanyStep r st co = st := by
        simp [b2CompanyStep, hco]
      rw [hstep]
      exact ih st h1 h2 h3 h4
    | some coid =>
      cases hcc : r.companyContactIds coid with
      | error e =>
        have hstep : b2CompanyStep r st co
            = { st with trace := st.trace ++ [.companyContactsCall coid] } := by
          simp [b2CompanyStep, hco, hcc]
        rw [hstep]
        exact ih _ h1 h2 h3 h4
      | ok cids =>
        have hinner := b2CollectIds_invariant
          (pyOrDefault (propGet co.properties "name") coid) coid seen0 cids
          (st.triples, st.seen) h1 h2 h3 h4
        have hstep : b2CompanyStep r st co =
            { triples := (cids.foldl
                (b2CollectIds (pyOrDefault (propGet co.properties "name") coid) coid)
                (st.triples, st.seen)).1,
              seen := (cids.foldl
                (b2CollectIds (pyOrDefault (propGet co.properties "name") coid) coid)
                (st.triples, st.seen)).2,
              trace := st.trace ++ [.companyContactsCall coid] } := by
          simp [b2CompanyStep, hco, hcc]
        rw [hstep]
        exact ih _ hinner.1 hinner.2.1 hinner.2.2.1 hinner.2.2.2

lemma b2Emit_ids (nm : List (String × (String × String))) :
    ∀ (batch : List HContact) (acc : List Contact),
      (batch.foldl (b2EmitStep nm) acc).map (fun c => c.id)
        = acc.map (fun c => c.id) ++ batch.filterMap (fun hc => truthyStr hc.id) := by
  intro batch
  induction batch with
  | nil => intro acc; simp
  | cons hc rest ih =>
    intro acc
    rw [List.foldl_cons, List.filterMap_cons]
    cases hid : hc.id with
    | none =>
      have hstep : b2EmitStep nm acc hc = acc := by
        simp [b2EmitStep, hid]
      rw [hstep]
      simpa [truthyStr] using ih acc
    | some s =>
      by_cases hs : s = ""
      · have hstep : b2EmitStep nm acc hc = acc := by
          simp [b2EmitStep, hid, hs]
        rw [hstep]
        simpa [truthyStr, hs] using ih acc
      · have hstep : (b2EmitStep nm acc hc).map (fun c => c.id)
            = acc.map (fun c => c.id) ++ [s] := by
          cases hl : dictLookup nm s <;>
            simp [b2EmitStep, hid, hs, hl, hubspotContactToContact]
        have := ih (b2EmitStep nm acc hc)
        rw [this, hstep]
        simp [truthyStr, hs]

lemma truthy_filterMap_sublist :
    ∀ (l : List HContact),
      (l.filterMap (fun hc => truthyStr hc.id)).Sublist
        (l.filterMap (fun hc => hc.id)) := by
  intro l
  induction l with
  | nil => simp
  | cons hc rest ih =>
    rw [List.filterMap_cons, List.filterMap_cons]
    cases hid : hc.id with
    | none => simpa [truthyStr] using ih
    | some s =>
      by_cases hs : s = ""
      · have ht : truthyStr (some s) = none := by simp [truthyStr, hs]
        rw [ht]
        exact ih.cons s
      · have ht : truthyStr (some s) = some s := by simp [truthyStr, hs]
        rw [ht]
        exact ih.cons₂ s

/-- C5.  For every query outcome and every pair of branch result sets,
the merged search output never contains two results with the same
primary-entity id: direct-branch results are emitted first in arrival
order with their ids marked seen, and derived-branch ids already seen
are skipped at collection time.  The only assumption is the batch-read
endpoint's contract: it returns each stored contact at most once and
only for requested ids. -/
theorem search_merge_dedup (r : SearchRemote)
    (hbatch : ∀ ids l, r.contactsBatchOracle ids = .ok l →
      (l.filterMap (fun hc => hc.id)).Nodup ∧
      (∀ hc ∈ l, ∀ s, hc.id = some s → s ∈ ids)) :
    ((search_contacts_endpoint r).1.map (fun c => c.id)).Nodup := by
  have hb1 : (contactSearchBranch r).1.1.map (fun c => c.id)
        = (contactSearchBranch r).1.2 ∧ (contactSearchBranch r).1.2.Nodup := by
    unfold contactSearchBranch
    cases r.searchContactsResult with
    | error e => simp
    | ok c_results =>
      try dsimp only
      exact branch1_fold_invariant _ c_results ([], []) (by simp) (by simp)
  unfold search_contacts_endpoint
  unfold companySearchBranch
  cases hs2 : r.searchCompaniesResult with
  | error e =>
    try dsimp only
    rw [hb1.1]
    exact hb1.2
  | ok companies =>
    try dsimp only
    have hfold := b2CompanyFold_invariant r (contactSearchBranch r).1.2 companies
      ⟨[], (contactSearchBranch r).1.2, []⟩ (by simp) (by simp) (by simp [B2State.seen])
      (by simp)
    by_cases htr :
        (companies.foldl (b2CompanyStep r) ⟨[], (contactSearchBranch r).1.2, []⟩).triples.isEmpty
    · rw [if_pos htr]
      try dsimp only
      rw [hb1.1]
      exact hb1.2
    · rw [if_neg htr]
      try dsimp only
      set st := companies.foldl (b2CompanyStep r) ⟨[], (contactSearchBranch r).1.2, []⟩
        with hst
      unfold get_contacts_batch
      by_cases hemp : ((st.triples.map (fun t => t.1)).take 100).isEmpty
      · rw [if_pos hemp]
        try dsimp only
        simp only [List.foldl_nil]
        rw [hb1.1]
        exact hb1.2
      · rw [if_neg hemp]
        try dsimp only
        cases hbo : r.contactsBatchOracle (((st.triples.map (fun t => t.1)).take 100).take 100)
            with
        | error e =>
          try dsimp only
          rw [hb1.1]
          exact hb1.2
        | ok batch =>
          try dsimp only
          obtain ⟨hnd, hsub⟩ := hbatch _ batch hbo
          rw [b2Emit_ids]
          rw [hb1.1]
          apply List.Nodup.append hb1.2 ((truthy_filterMap_sublist batch).nodup hnd)
          intro a ha hamem
          obtain ⟨hc, hhc, hth⟩ := List.mem_filterMap.1 hamem
          have hida : hc.id = some a := by
            cases hid : hc.id with
            | none => rw [hid] at hth; simp [truthyStr] at hth
            | some s =>
              rw [hid] at hth
              by_cases hss : s = ""
              · simp [truthyStr, hss] at hth
              · simp [truthyStr, hss] at hth
                rw [hth]
          have hreq := hsub hc hhc a hida
          rw [List.take_take] at hreq
          have hintriples : a ∈ st.triples.map (fun t => t.1) :=
            List.mem_of_mem_take hreq
          exact hfold.2.2.2 a hintriples ha

/-- A concrete remote for the search witness: the direct search returns
the same contact twice, a company search hit links two contacts, and
the batch read returns nothing. -/
def searchWitnessRemote : SearchRemote :=
  { searchContactsResult := .ok [⟨some "p1", [], none, none⟩, ⟨some "p1", [], none, none⟩]
    searchCompaniesResult := .ok [⟨some "co", [("name", some "Acme")]⟩]
    assocOracle := fun _ => .ok ⟨[]⟩
    companiesBatchOracle := fun _ => .ok []
    companyContactIds := fun _ => .ok ["p1", "p2"]
    contactsBatchOracle := fun _ => .ok [] }

/-- Witness for `search_merge_dedup` at `searchWitnessRemote`. -/
theorem search_merge_dedup_witness :
    ((search_contacts_endpoint searchWitnessRemote).1.map (fun c => c.id)).Nodup :=
  search_merge_dedup searchWitnessRemote (by
    intro ids l h
    have hl : l = [] := (Except.ok.inj h).symm
    subst hl
    exact ⟨by simp, by simp⟩)

/-! ### Activities list endpoint (read-through task cache)

Embeds `list_activities` (endpoints/activities.py lines 224-351) with
its helpers `_hubspot_task_to_activity` (65-98), `_apply_filters`
(101-138), `_apply_sort` (141-158), `_contact_dict_to_info` (161-176),
`_activity_dict_to_response` (179-210), and the Supabase cache
operations `get_tasks_cache_freshness`, `get_tasks_cache`,
`upsert_tasks_cache_bulk` (supabase_service.py 206-301).

Modelling notes: timestamps are integers in epoch milliseconds; the
`hs_timestamp` property is carried as its `_parse_ts` result (`none`
for absent/unparsable); the `date` query parameter is carried as its
parsed UTC day index and `date_from`/`date_to` as their parsed
instants, `none` when absent or unparsable (parse failures leave the
filter inactive, as the `except ValueError: pass` does); Python UTC
day-of-instant is floor division by 86400000 ms; `list({...})` (a set)
is modelled as first-occurrence dedup; the single-owner cache table is
the list of that owner's rows. -/

structure HAssocRef where
  id : Option String
deriving Repr, DecidableEq

/-- A raw HubSpot task object as cached (fields are the property keys
`hs_task_subject`, `hs_task_body`, `hs_timestamp`, `hs_task_status`,
`hs_task_priority`, `hs_task_type`, and the association results). -/
structure HTask where
  id : Option String
  subject : Option String
  body : Option String
  hsTimestamp : Option Int
  status : Option String
  priority : Option String
  taskType : Option String
  assocContacts : List HAssocRef
  assocCompanies : List HAssocRef
  createdAt : Option String
  updatedAt : Option String
deriving Repr, DecidableEq

/-- The internal activity dict built by `_hubspot_task_to_activity`. -/
structure Activity where
  id : String
  hubspot_id : String
  actType : Option String
  subject : Option String
  body : Option String
  due_date : Option Int
  completed : Bool
  contact_ids : List String
  company_ids : List String
  created_at : Option String
  updated_at : Option String
  contacts : List HContact
  contact_company_names : List (String × String)
  priorityKey : String
deriving Repr, DecidableEq

def hubspotTaskToActivity (t : HTask) : Activity :=
  { id := t.id.getD ""
    hubspot_id := t.id.getD ""
    actType := truthyStr t.taskType
    subject := truthyStr t.subject
    body := truthyStr t.body
    due_date := t.hsTimestamp
    completed := (pyOrDefault t.status "").toUpper == "COMPLETED"
    contact_ids := t.assocContacts.filterMap (fun a => truthyStr a.id)
    company_ids := t.assocCompanies.filterMap (fun a => truthyStr a.id)
    created_at := t.createdAt
    updated_at := t.updatedAt
    contacts := []
    contact_company_names := []
    priorityKey := pyOrDefault t.priority "" }

structure CacheRow where
  hubspot_task_id : String
  data : HTask
  last_synced_at : Int
deriving Repr, DecidableEq

/-- `SupabaseService.get_tasks_cache_freshness`: the most recent
`last_synced_at` across the owner's rows, `None` without rows. -/
def get_tasks_cache_freshness (cache : List CacheRow) : Option Int :=
  (cache.map (fun r => r.last_synced_at)).max?

/-- One row of `SupabaseService.upsert_tasks_cache_bulk`: replace on
the `(user_id, hubspot_task_id)` conflict key, else insert. -/
def upsertTaskRow (now : Int) (cache : List CacheRow) (t : HTask) : List CacheRow :=
  let key := t.id.getD ""
  if cache.any (fun r => r.hubspot_task_id == key) then
    cache.map (fun r => if r.hubspot_task_id == key then ⟨key, t, now⟩ else r)
  else cache ++ [⟨key, t, now⟩]

def upsert_tasks_cache_bulk (now : Int) (cache : List CacheRow) (tasks : List HTask) :
    List CacheRow :=
  if tasks.isEmpty then cache else tasks.foldl (upsertTaskRow now) cache

def CACHE_FRESH_SECONDS : Int := 300

/-- Freshness test of lines 244-256: fresh iff a prior sync timestamp
exists and is younger than the TTL. -/
def isFresh (nowMs : Int) (lastSynced : Option Int) : Bool :=
  match lastSynced with
  | some ts => decide (nowMs - ts < CACHE_FRESH_SECONDS * 1000)
  | none => false

inductive SortOpt where
  | dateNewest
  | dateOldest
  | priorityHighLow
  | priorityLowHigh
deriving Repr, DecidableEq

structure ListParams where
  date : Option Int
  date_from : Option Int
  date_to : Option Int
  sort : SortOpt
deriving Repr, DecidableEq

/-- The default-date rule of lines 237-239: when no date filter is
given at all, filter on today (the UTC day of `now`). -/
def effectiveDate (nowMs : Int) (params : ListParams) : Option Int :=
  if params.date = none ∧ params.date_from = none ∧ params.date_to = none then
    some (Int.fdiv nowMs 86400000)
  else params.date

/-- `_apply_filters` (101-138): three independent due-date filters;
rows without a due date fail any active filter. -/
def applyFilters (effDate dateFrom dateTo : Option Int) (acts : List Activity) :
    List Activity :=
  let out1 := match effDate with
    | some d => acts.filter (fun a => match a.due_date with
        | some t => Int.fdiv t 86400000 == d
        | none => false)
    | none => acts
  let out2 := match dateFrom with
    | some s => out1.filter (fun a => match a.due_date with
        | some t => decide (s ≤ t)
        | none => false)
    | none => out1
  match dateTo with
  | some e => out2.filter (fun a => match a.due_date with
      | some t => decide (t ≤ e)
      | none => false)
  | none => out2

/-- Sort key of the `date_newest`/`date_oldest` branches: the pair
`(d is None, ±seconds)`; a task with no due date but a truthy raw
`created_at` string gets value 0 (strings have no `.timestamp()`). -/
def keyDateVal (a : Activity) : Bool × Option Int :=
  match a.due_date with
  | some t => (false, some t)
  | none =>
    match truthyStr a.created_at with
    | some _ => (false, none)
    | none => (true, none)

/-- Lexicographic Bool × Int comparison (False < True). -/
def lexBI (x y : Bool × Int) : Bool :=
  (!x.1 && y.1) || (x.1 == y.1 && decide (x.2 ≤ y.2))

/-- `key_priority` map of line 143 applied to the upper-cased stored
priority. -/
def priorityRank (p : String) : Int :=
  if p.toUpper == "HIGH" then 3
  else if p.toUpper == "MEDIUM" then 2
  else if p.toUpper == "LOW" then 1
  else 0

/-- `_apply_sort`'s key comparison for one sort option (Python sorts
ascending by key; `sorted` is stable).  Millisecond values stand in
for the float `timestamp()` seconds — same order, same ties. -/
def sortLe (sort : SortOpt) (a b : Activity) : Bool :=
  match sort with
  | .dateNewest =>
    lexBI ((keyDateVal a).1, -(((keyDateVal a).2).getD 0))
      ((keyDateVal b).1, -(((keyDateVal b).2).getD 0))
  | .dateOldest =>
    lexBI ((keyDateVal a).1, ((keyDateVal a).2).getD 0)
      ((keyDateVal b).1, ((keyDateVal b).2).getD 0)
  | .priorityHighLow =>
    (decide (-(priorityRank a.priorityKey) < -(priorityRank b.priorityKey))) ||
    ((-(priorityRank a.priorityKey) == -(priorityRank b.priorityKey)) &&
      decide ((a.due_date.getD 0) ≤ (b.due_date.getD 0)))
  | .priorityLowHigh => decide (a.id ≤ b.id)

def applySort (sort : SortOpt) (acts : List Activity) : List Activity :=
  acts.mergeSort (sortLe sort)

structure ContactInfo where
  id : String
  email : Option String
  first_name : Option String
  last_name : Option String
  hubspot_id : Option String
  phone : Option String
  mobile_phone : Option String
  company_name : Option String
deriving Repr, DecidableEq

/-- `_contact_dict_to_info`: `props = c.get("properties") or c` — with
an empty property bag the lookups fall back to the contact dict
itself, which carries none of the property keys. -/
def contactDictToInfo (c : HContact) (company_name : Option String) : ContactInfo :=
  { id := c.id.getD ""
    email := if c.properties.isEmpty then none else propGet c.properties "email"
    first_name := if c.properties.isEmpty then none else propGet c.properties "firstname"
    last_name := if c.properties.isEmpty then none else propGet c.properties "lastname"
    hubspot_id := some (c.id.getD "")
    phone := if c.properties.isEmpty then none else propGet c.properties "phone"
    mobile_phone := if c.properties.isEmpty then none
      else propGet c.properties "mobilephone"
    company_name := company_name }

structure ActivityResponse where
  id : String
  hubspot_id : String
  actType : Option String
  subject : Option String
  body : Option String
  due_date : Option Int
  completed : Bool
  contact_ids : List String
  company_ids : List String
  created_at : Option String
  updated_at : Option String
  contacts : List ContactInfo
deriving Repr, DecidableEq

/-- `_activity_dict_to_response` (179-210); the `companies` list stays
empty on this code path (nothing fills `a["companies"]`) and is not
modelled. -/
def activityDictToResponse (a : Activity) : ActivityResponse :=
  { id := a.id
    hubspot_id := a.hubspot_id
    actType := a.actType
    subject := a.subject
    body := a.body
    due_date := a.due_date
    completed := a.completed
    contact_ids := a.contact_ids
    company_ids := a.company_ids
    created_at := a.created_at
    updated_at := a.updated_at
    contacts := a.contacts.filterMap (fun c =>
      if (truthyStr c.id).isSome || !c.properties.isEmpty then
        some (contactDictToInfo c (dictLookup a.contact_company_names (c.id.getD "")))
      else none) }

structure TasksRemote where
  tasksPage : Option String → Except HSErr (HPage HTask)
  contactsBatchOracle : List String → Except HSErr (List HContact)
  assocOracle : List String → Except HSErr AssocResponse
  companiesBatchOracle : List String → Except HSErr (List HCompany)

/-- The enrichment step (e) of `list_activities` (lines 294-327): batch
fetch contact details and company names for every contact id of the
filtered activities.  An error from the contact batch is swallowed by
the outer `try` (contacts stay empty); an error from the association
or company batch is swallowed by the inner `try` (names stay empty). -/
def enrichActivities (r : TasksRemote) (acts : List Activity) :
    List Activity × List CallEv :=
  let all_contact_ids := pyDedup (acts.foldl (fun acc a => acc ++ a.contact_ids) [])
  if all_contact_ids.isEmpty then (acts, [])
  else
    let cb := get_contacts_batch r.contactsBatchOracle all_contact_ids
    match cb.1 with
    | .error _ => (acts, cb.2)
    | .ok contact_list =>
      let contact_map := contact_list.foldl
        (fun acc c =>
          match truthyStr c.id with
          | some cid => dictInsert acc cid c
          | none => acc)
        []
      let inner : List (String × String) × List CallEv :=
        let assoc := batch_read_contact_company_ids r.assocOracle all_contact_ids
        let tr := assoc.2.map CallEv.contactCompanyAssocCall
        match assoc.1 with
        | .error _ => ([], tr)
        | .ok contact_to_company =>
          let unique_company_ids := pyDedup (contact_to_company.map (fun p => p.2))
          if unique_company_ids.isEmpty then ([], tr)
          else
            let cob := get_companies_batch r.companiesBatchOracle unique_company_ids
            match cob.1 with
            | .error _ => ([], tr ++ cob.2)
            | .ok companies =>
              let company_name_by_id := companies.foldl
                (fun acc co => dictInsert acc (co.id.getD "") (propGet co.properties "name"))
                []
              let c2cn := contact_to_company.foldl
                (fun acc p =>
                  dictInsert acc p.1 (pyOrDefault (propGet company_name_by_id p.2) ""))
                []
              (c2cn, tr ++ cob.2)
      let acts2 := acts.map (fun a =>
        { a with
          contacts := a.contact_ids.filterMap (fun cid => dictLookup contact_map cid)
          contact_company_names := a.contact_ids.foldl
            (fun acc cid => dictInsert acc cid ((dictLookup inner.1 cid).getD "")) [] })
      (acts2, cb.2 ++ inner.2)

structure ListActivitiesOutcome where
  resp : List ActivityResponse
  cache : List CacheRow
  trace : List CallEv
deriving Repr, DecidableEq

/-- `list_activities` (GET /activities/): freshness check, conditional
paginated refresh with bulk upsert, cache read, filters, enrichment,
sort and response; a `HubSpotServiceError` from the refresh loop falls
to the handler of lines 336-343, which serves the (unchanged) cache
through the same filters and sort without enrichment.  `fuel` bounds
the pagination loop; `none` means that loop would not have
terminated. -/
def list_activities (r : TasksRemote) (cache : List CacheRow) (nowMs : Int)
    (params : ListParams) (fuel : Nat) : Option ListActivitiesOutcome :=
  let effDate := effectiveDate nowMs params
  let fresh := isFresh nowMs (get_tasks_cache_freshness cache)
  let refreshed : Option (Except HSErr Unit × List CallEv × List CacheRow) :=
    if fresh then some (.ok (), [], cache)
    else
      match fetchAll r.tasksPage fuel with
      | none => none
      | some (res, calls) =>
        let tr := calls.map CallEv.listTasksCall
        match res with
        | .error e => some (.error e, tr, cache)
        | .ok all_tasks =>
          some (.ok (), tr, upsert_tasks_cache_bulk nowMs cache all_tasks)
  match refreshed with
  | none => none
  | some (.error _, tr, cache2) =>
    let acts := applySort params.sort
      (applyFilters effDate params.date_from params.date_to
        (cache2.map (fun row => hubspotTaskToActivity row.data)))
    some ⟨acts.map activityDictToResponse, cache2, tr⟩
  | some (.ok _, tr, cache2) =>
    let activities := cache2.map (fun row => hubspotTaskToActivity row.data)
    let filtered := applyFilters effDate params.date_from params.date_to activities
    let enr := enrichActivities r filtered
    let sorted := applySort params.sort enr.1
    some ⟨sorted.map activityDictToResponse, cache2, tr ++ enr.2⟩

def isListTasksEv : CallEv → Bool
  | .listTasksCall _ => true
  | _ => false

def countListTasksEvents (tr : List CallEv) : Nat := (tr.filter isListTasksEv).length

/-- Number of pagination passes started (a pass always begins with the
cursor-less list call). -/
def countPassStarts (tr : List CallEv) : Nat :=
  (tr.filter (fun e => e == CallEv.listTasksCall none)).length

lemma countListTasksEvents_eq_zero {tr : List CallEv}
    (h : ∀ e ∈ tr, isListTasksEv e = false) : countListTasksEvents tr = 0 := by
  unfold countListTasksEvents
  rw [List.filter_eq_nil_iff.2 (fun e he => by simp [h e he])]
  rfl

lemma countPassStarts_eq_zero {tr : List CallEv}
    (h : ∀ e ∈ tr, isListTasksEv e = false) : countPassStarts tr = 0 := by
  unfold countPassStarts
  rw [List.filter_eq_nil_iff.2 ?_]
  · rfl
  · intro e he hbeq
    have he2 : e = CallEv.listTasksCall none := by simpa using hbeq
    subst he2
    have h2 := h _ he
    simp [isListTasksEv] at h2

lemma mem_get_contacts_batch_trace {oracle : List String → Except HSErr (List HContact)}
    {ids : List String} {e : CallEv} (he : e ∈ (get_contacts_batch oracle ids).2) :
    isListTasksEv e = false := by
  unfold get_contacts_batch at he
  split at he
  · simp at he
  · simp at he
    subst he
    rfl

lemma mem_get_companies_batch_trace {oracle : List String → Except HSErr (List HCompany)}
    {ids : List String} {e : CallEv} (he : e ∈ (get_companies_batch oracle ids).2) :
    isListTasksEv e = false := by
  unfold get_companies_batch at he
  split at he
  · simp at he
  · simp at he
    subst he
    rfl

lemma mem_assoc_calls_trace {l : List (List String)} {e : CallEv}
    (he : e ∈ l.map CallEv.contactCompanyAssocCall) : isListTasksEv e = false := by
  obtain ⟨ids, _, rfl⟩ := List.mem_map.1 he
  rfl

lemma enrich_trace_events (r : TasksRemote) (acts : List Activity) :
    ∀ e ∈ (enrichActivities r acts).2, isListTasksEv e = false := by
  intro e he
  unfold enrichActivities at he
  dsimp only at he
  split at he
  · simp at he
  · split at he
    · exact mem_get_contacts_batch_trace he
    · simp only [List.mem_append] at he
      rcases he with he | he
      · exact mem_get_contacts_batch_trace he
      · split at he
        · exact mem_assoc_calls_trace he
        · split at he
          · exact mem_assoc_calls_trace he
          · split at he
            · simp only [List.mem_append] at he
              rcases he with he | he
              · exact mem_assoc_calls_trace he
              · exact mem_get_companies_batch_trace he
            · simp only [List.mem_append] at he
              rcases he with he | he
              · exact mem_assoc_calls_trace he
              · exact mem_get_companies_batch_trace he

lemma enrich_ids (r : TasksRemote) (acts : List Activity) :
    (enrichActivities r acts).1.map (fun a => a.id) = acts.map (fun a => a.id) := by
  unfold enrichActivities
  dsimp only
  split
  · rfl
  · split
    · rfl
    · rw [List.map_map]
      rfl

lemma fetchAllGo_none_count {α : Type} (pages : Option String → Except HSErr (HPage α)) :
    ∀ (fuel : Nat) (after : Option String) (acc : List α)
      (calls : List (Option String)) (out : Except HSErr (List α) × List (Option String)),
      fetchAllGo pages after acc calls fuel = some out →
      (out.2.filter (fun c => c == (none : Option String))).length
        = (calls.filter (fun c => c == (none : Option String))).length
          + (if after = none then 1 else 0) := by
  intro fuel
  induction fuel with
  | zero => intro after acc calls out h; simp [fetchAllGo] at h
  | succ n ih =>
    intro after acc calls out h
    unfold fetchAllGo at h
    cases hp : pages after with
    | error e =>
      rw [hp] at h
      have hout : out = (.error e, calls ++ [after]) := (Option.some.inj h).symm
      subst hout
      simp only [List.filter_append, List.length_append]
      cases after <;> simp
    | ok p =>
      rw [hp] at h
      dsimp only at h
      by_cases hstop : (afterFalsy p.nextAfter || p.results.isEmpty) = true
      · rw [if_pos hstop] at h
        have hout : out = (.ok (acc ++ p.results), calls ++ [after]) :=
          (Option.some.inj h).symm
        subst hout
        simp only [List.filter_append, List.length_append]
        cases after <;> simp
      · rw [if_neg hstop] at h
        have hnf : p.nextAfter ≠ none := by
          intro hnone
          apply hstop
          rw [hnone]
          simp [afterFalsy]
        have := ih p.nextAfter (acc ++ p.results) (calls ++ [after]) out h
        rw [this]
        rw [if_neg hnf]
        simp only [List.filter_append, List.length_append]
        cases after <;> simp

lemma upsertTaskRow_preserves (now : Int) (cache : List CacheRow) (t : HTask)
    (row : CacheRow) (hrow : row ∈ cache) (hne : row.hubspot_task_id ≠ t.id.getD "") :
    row ∈ upsertTaskRow now cache t := by
  unfold upsertTaskRow
  dsimp only
  split
  · refine List.mem_map.2 ⟨row, hrow, ?_⟩
    rw [if_neg (by simpa using hne)]
  · exact List.mem_append.2 (Or.inl hrow)

lemma upsert_fold_preserves (now : Int) :
    ∀ (tasks : List HTask) (cache : List CacheRow) (row : CacheRow),
      row ∈ cache → (∀ t ∈ tasks, row.hubspot_task_id ≠ t.id.getD "") →
      row ∈ tasks.foldl (upsertTaskRow now) cache
  | [], _, _, h, _ => h
  | t :: ts, cache, row, h, hall =>
    upsert_fold_preserves now ts (upsertTaskRow now cache t) row
      (upsertTaskRow_preserves now cache t row h (hall t (List.mem_cons_self t ts)))
      (fun t2 ht2 => hall t2 (List.mem_cons_of_mem t ht2))

lemma upsert_bulk_preserves (now : Int) (tasks : List HTask) (cache : List CacheRow)
    (row : CacheRow) (hrow : row ∈ cache)
    (hne : ∀ t ∈ tasks, row.hubspot_task_id ≠ t.id.getD "") :
    row ∈ upsert_tasks_cache_bulk now cache tasks := by
  unfold upsert_tasks_cache_bulk
  split
  · exact hrow
  · exact upsert_fold_preserves now tasks cache row hrow hne

/-- The conjunction of the three due-date conditions of
`_apply_filters`. -/
def passesFilters (effDate dateFrom dateTo : Option Int) (a : Activity) : Bool :=
  (match effDate with
   | some d => match a.due_date with
     | some t => Int.fdiv t 86400000 == d
     | none => false
   | none => true) &&
  (match dateFrom with
   | some s => match a.due_date with
     | some t => decide (s ≤ t)
     | none => false
   | none => true) &&
  (match dateTo with
   | some e => match a.due_date with
     | some t => decide (t ≤ e)
     | none => false
   | none => true)

lemma mem_applyFilters_of {effDate dateFrom dateTo : Option Int} {acts : List Activity}
    {a : Activity} (ha : a ∈ acts)
    (hp : passesFilters effDate dateFrom dateTo a = true) :
    a ∈ applyFilters effDate dateFrom dateTo acts := by
  unfold applyFilters
  unfold passesFilters at hp
  simp only [Bool.and_eq_true] at hp
  obtain ⟨⟨h1, h2⟩, h3⟩ := hp
  cases effDate <;> cases dateFrom <;> cases dateTo <;>
    simp_all [List.mem_filter]

lemma countPassStarts_append (a b : List CallEv) :
    countPassStarts (a ++ b) = countPassStarts a + countPassStarts b := by
  unfold countPassStarts
  rw [List.filter_append, List.length_append]

lemma countPassStarts_map_listTasks (calls : List (Option String)) :
    countPassStarts (calls.map CallEv.listTasksCall)
      = (calls.filter (fun c => c == (none : Option String))).length := by
  unfold countPassStarts
  rw [List.filter_map, List.length_map]
  congr 1
  apply List.filter_congr
  intro c _
  cases c <;> simp

lemma list_activities_fresh_eq (r : TasksRemote) (cache : List CacheRow) (nowMs : Int)
    (params : ListParams) (fuel : Nat)
    (hfresh : isFresh nowMs (get_tasks_cache_freshness cache) = true) :
    list_activities r cache nowMs params fuel =
      some ⟨(applySort params.sort
          (enrichActivities r
            (applyFilters (effectiveDate nowMs params) params.date_from params.date_to
              (cache.map (fun row => hubspotTaskToActivity row.data)))).1).map
          activityDictToResponse,
        cache,
        [] ++ (enrichActivities r
          (applyFilters (effectiveDate nowMs params) params.date_from params.date_to
            (cache.map (fun row => hubspotTaskToActivity row.data)))).2⟩ := by
  unfold list_activities
  rw [hfresh]
  rfl

lemma list_activities_stale_none_eq (r : TasksRemote) (cache : List CacheRow)
    (nowMs : Int) (params : ListParams) (fuel : Nat)
    (hfresh : isFresh nowMs (get_tasks_cache_freshness cache) = false)
    (hfetch : fetchAll r.tasksPage fuel = none) :
    list_activities r cache nowMs params fuel = none := by
  unfold list_activities
  rw [hfresh, hfetch]
  rfl

lemma list_activities_stale_err_eq (r : TasksRemote) (cache : List CacheRow)
    (nowMs : Int) (params : ListParams) (fuel : Nat) (e : HSErr)
    (calls : List (Option String))
    (hfresh : isFresh nowMs (get_tasks_cache_freshness cache) = false)
    (hfetch : fetchAll r.tasksPage fuel = some (.error e, calls)) :
    list_activities r cache nowMs params fuel =
      some ⟨(applySort params.sort
          (applyFilters (effectiveDate nowMs params) params.date_from params.date_to
            (cache.map (fun row => hubspotTaskToActivity row.data)))).map
          activityDictToResponse,
        cache, calls.map CallEv.listTasksCall⟩ := by
  unfold list_activities
  rw [hfresh, hfetch]
  rfl

lemma list_activities_stale_ok_eq (r : TasksRemote) (cache : List CacheRow)
    (nowMs : Int) (params : ListParams) (fuel : Nat) (R : List HTask)
    (calls : List (Option String))
    (hfresh : isFresh nowMs (get_tasks_cache_freshness cache) = false)
    (hfetch : fetchAll r.tasksPage fuel = some (.ok R, calls)) :
    list_activities r cache nowMs params fuel =
      some ⟨(applySort params.sort
          (enrichActivities r
            (applyFilters (effectiveDate nowMs params) params.date_from params.date_to
              ((upsert_tasks_cache_bulk nowMs cache R).map
                (fun row => hubspotTaskToActivity row.data)))).1).map
          activityDictToResponse,
        upsert_tasks_cache_bulk nowMs cache R,
        calls.map CallEv.listTasksCall
          ++ (enrichActivities r
            (applyFilters (effectiveDate nowMs params) params.date_from params.date_to
              ((upsert_tasks_cache_bulk nowMs cache R).map
                (fun row => hubspotTaskToActivity row.data)))).2⟩ := by
  unfold list_activities
  rw [hfresh, hfetch]
  rfl

/-- The fresh witness task: due at t=5ms, one associated contact. -/
def wTask1 : HTask :=
  ⟨some "t1", none, none, some 5, none, none, none, [⟨some "c1"⟩], [], none, none⟩

def wCacheFresh : List CacheRow := [⟨"t1", wTask1, 999800000⟩]

def wParams : ListParams := ⟨none, some 0, none, .dateNewest⟩

def wRemote : TasksRemote :=
  { tasksPage := fun _ => .ok ⟨[], none⟩
    contactsBatchOracle := fun _ => .ok []
    assocOracle := fun _ => .ok ⟨[]⟩
    companiesBatchOracle := fun _ => .ok [] }

set_option maxRecDepth 400000 in
/-- C3 (counterexample).  With the owner's most recent sync 200s old
(TTL 300s) the listing is served from the cache without a collection
refresh, but it is NOT free of remote calls: the enrichment step still
issues a contact batch read and an association batch read for the
cached task's contact id. -/
theorem cache_fresh_remote_call_violated :
    get_tasks_cache_freshness wCacheFresh = some (1000000000 - 200 * 1000) ∧
    isFresh 1000000000 (get_tasks_cache_freshness wCacheFresh) = true ∧
    (list_activities wRemote wCacheFresh 1000000000 wParams 5).map
        (fun o => o.trace)
      = some [CallEv.contactsBatchCall ["c1"], CallEv.contactCompanyAssocCall ["c1"]] := by
  refine ⟨by decide, by decide, by decide⟩

/-- C3 (amended).  Given a prior sync `ts`: when `now - ts` is within
the 300s TTL (e.g. 200s), the listing performs no task-collection list
call at all and leaves the cache unchanged (though enrichment batch
reads may still reach the remote); when `now - ts` is at least the TTL
(e.g. 400s), the listing starts exactly one collection refresh pass
before returning. -/
theorem cache_ttl_amended (r : TasksRemote) (cache : List CacheRow) (nowMs ts : Int)
    (params : ListParams) (fuel : Nat) (out : ListActivitiesOutcome)
    (hsync : get_tasks_cache_freshness cache = some ts)
    (hrun : list_activities r cache nowMs params fuel = some out) :
    (nowMs - ts < CACHE_FRESH_SECONDS * 1000 →
      countListTasksEvents out.trace = 0 ∧ out.cache = cache) ∧
    (CACHE_FRESH_SECONDS * 1000 ≤ nowMs - ts → countPassStarts out.trace = 1) := by
  by_cases hf : nowMs - ts < CACHE_FRESH_SECONDS * 1000
  · have hfresh : isFresh nowMs (get_tasks_cache_freshness cache) = true := by
      rw [hsync]
      simp [isFresh, hf]
    rw [list_activities_fresh_eq r cache nowMs params fuel hfresh] at hrun
    have hout := (Option.some.inj hrun).symm
    constructor
    · intro _
      constructor
      · rw [hout]
        apply countListTasksEvents_eq_zero
        intro e he
        simp only [List.nil_append] at he
        exact enrich_trace_events r _ e he
      · rw [hout]
    · intro hge
      omega
  · have hstale : isFresh nowMs (get_tasks_cache_freshness cache) = false := by
      rw [hsync]
      simp only [isFresh, CACHE_FRESH_SECONDS, decide_eq_false_iff_not]
      simp only [CACHE_FRESH_SECONDS] at hf
      omega
    constructor
    · intro hlt
      omega
    · intro _
      cases hfe : fetchAll r.tasksPage fuel with
      | none =>
        rw [list_activities_stale_none_eq r cache nowMs params fuel hstale hfe] at hrun
        simp at hrun
      | some pr =>
        obtain ⟨res, calls⟩ := pr
        have hcount : (calls.filter (fun c => c == (none : Option String))).length = 1 := by
          simpa using fetchAllGo_none_count r.tasksPage fuel none [] [] (res, calls) hfe
        cases res with
        | error e =>
          rw [list_activities_stale_err_eq r cache nowMs params fuel e calls hstale hfe]
            at hrun
          have hout := (Option.some.inj hrun).symm
          rw [hout]
          rw [show (ListActivitiesOutcome.mk _ cache (calls.map CallEv.listTasksCall)).trace
            = calls.map CallEv.listTasksCall from rfl]
          rw [countPassStarts_map_listTasks]
          exact hcount
        | ok R =>
          rw [list_activities_stale_ok_eq r cache nowMs params fuel R calls hstale hfe]
            at hrun
          have hout := (Option.some.inj hrun).symm
          rw [hout]
          dsimp only
          rw [countPassStarts_append, countPassStarts_map_listTasks]
          rw [countPassStarts_eq_zero (enrich_trace_events r _)]
          omega

/-- C4.  For every state with a prior successful sync (however stale),
if the remote list refresh raises a gateway error, the listing still
returns normally with the prior cached snapshot — filtered and sorted
from the unchanged cache rows — instead of propagating the error, and
the cache is left untouched. -/
theorem cache_stale_on_error (r : TasksRemote) (cache : List CacheRow)
    (nowMs ts : Int) (params : ListParams) (fuel : Nat) (e : HSErr)
    (calls : List (Option String))
    (hsync : get_tasks_cache_freshness cache = some ts)
    (hstale : CACHE_FRESH_SECONDS * 1000 ≤ nowMs - ts)
    (hfetch : fetchAll r.tasksPage fuel = some (.error e, calls)) :
    list_activities r cache nowMs params fuel =
      some ⟨(applySort params.sort
          (applyFilters (effectiveDate nowMs params) params.date_from params.date_to
            (cache.map (fun row => hubspotTaskToActivity row.data)))).map
          activityDictToResponse,
        cache, calls.map CallEv.listTasksCall⟩ := by
  have hfresh : isFresh nowMs (get_tasks_cache_freshness cache) = false := by
    rw [hsync]
    simp only [isFresh, CACHE_FRESH_SECONDS, decide_eq_false_iff_not]
    simp only [CACHE_FRESH_SECONDS] at hstale
    omega
  exact list_activities_stale_err_eq r cache nowMs params fuel e calls hfresh hfetch

/-- C10.  A successful list refresh only upserts cache rows: every
cached row whose remote id is absent from the refresh result is left
unchanged in the cache, and — whenever its activity passes the active
date filters — its id is still served in the response; a successful
refresh returning zero records performs no cache write at all, so the
cache (including every `last_synced_at`) is exactly unchanged. -/
theorem cache_refresh_upsert_only (r : TasksRemote) (cache : List CacheRow)
    (nowMs ts : Int) (params : ListParams) (fuel : Nat) (R : List HTask)
    (calls : List (Option String)) (out : ListActivitiesOutcome)
    (hsync : get_tasks_cache_freshness cache = some ts)
    (hstale : CACHE_FRESH_SECONDS * 1000 ≤ nowMs - ts)
    (hfetch : fetchAll r.tasksPage fuel = some (.ok R, calls))
    (hrun : list_activities r cache nowMs params fuel = some out) :
    (∀ row ∈ cache, row.hubspot_task_id ∉ R.map (fun t => t.id.getD "") →
      row ∈ out.cache ∧
      (passesFilters (effectiveDate nowMs params) params.date_from params.date_to
          (hubspotTaskToActivity row.data) = true →
        (hubspotTaskToActivity row.data).id ∈ out.resp.map (fun q => q.id))) ∧
    (R = [] → out.cache = cache) := by
  have hfresh : isFresh nowMs (get_tasks_cache_freshness cache) = false := by
    rw [hsync]
    simp only [isFresh, CACHE_FRESH_SECONDS, decide_eq_false_iff_not]
    simp only [CACHE_FRESH_SECONDS] at hstale
    omega
  rw [list_activities_stale_ok_eq r cache nowMs params fuel R calls hfresh hfetch] at hrun
  have hout := (Option.some.inj hrun).symm
  constructor
  · intro row hrow hnot
    have hne : ∀ t ∈ R, row.hubspot_task_id ≠ t.id.getD "" := by
      intro t ht heq
      exact hnot (List.mem_map.2 ⟨t, ht, heq.symm⟩)
    have hmem : row ∈ upsert_tasks_cache_bulk nowMs cache R :=
      upsert_bulk_preserves nowMs R cache row hrow hne
    refine ⟨by rw [hout]; exact hmem, ?_⟩
    intro hp
    have hact : hubspotTaskToActivity row.data ∈
        (upsert_tasks_cache_bulk nowMs cache R).map
          (fun row => hubspotTaskToActivity row.data) :=
      List.mem_map.2 ⟨row, hmem, rfl⟩
    have hfil := mem_applyFilters_of hact hp
    have hid1 : (hubspotTaskToActivity row.data).id ∈
        (enrichActivities r
          (applyFilters (effectiveDate nowMs params) params.date_from params.date_to
            ((upsert_tasks_cache_bulk nowMs cache R).map
              (fun row => hubspotTaskToActivity row.data)))).1.map
          (fun a => a.id) := by
      rw [enrich_ids]
      exact List.mem_map.2 ⟨_, hfil, rfl⟩
    obtain ⟨b, hb, hbid⟩ := List.mem_map.1 hid1
    have hbs : b ∈ applySort params.sort
        (enrichActivities r
          (applyFilters (effectiveDate nowMs params) params.date_from params.date_to
            ((upsert_tasks_cache_bulk nowMs cache R).map
              (fun row => hubspotTaskToActivity row.data)))).1 := by
      unfold applySort
      exact List.mem_mergeSort.2 hb
    rw [hout]
    dsimp only
    rw [List.map_map]
    exact List.mem_map.2 ⟨b, hbs, hbid⟩
  · intro hR
    rw [hout, hR]
    rfl

def wCacheStale : List CacheRow := [⟨"t1", wTask1, 999600000⟩]

/-- The outcome of the fresh-cache witness run (the right-hand side of
`list_activities_fresh_eq` at the witness inputs). -/
def wOutFresh : ListActivitiesOutcome :=
  ⟨(applySort wParams.sort
      (enrichActivities wRemote
        (applyFilters (effectiveDate 1000000000 wParams) wParams.date_from
          wParams.date_to
          (wCacheFresh.map (fun row => hubspotTaskToActivity row.data)))).1).map
      activityDictToResponse,
    wCacheFresh,
    [] ++ (enrichActivities wRemote
      (applyFilters (effectiveDate 1000000000 wParams) wParams.date_from
        wParams.date_to
        (wCacheFresh.map (fun row => hubspotTaskToActivity row.data)))).2⟩

/-- The outcome of the stale-cache witness run (the right-hand side of
`list_activities_stale_ok_eq` at the witness inputs, where the refresh
returns zero tasks after one page). -/
def wOutStale : ListActivitiesOutcome :=
  ⟨(applySort wParams.sort
      (enrichActivities wRemote
        (applyFilters (effectiveDate 1000000000 wParams) wParams.date_from
          wParams.date_to
          ((upsert_tasks_cache_bulk 1000000000 wCacheStale []).map
            (fun row => hubspotTaskToActivity row.data)))).1).map
      activityDictToResponse,
    upsert_tasks_cache_bulk 1000000000 wCacheStale [],
    [none].map CallEv.listTasksCall
      ++ (enrichActivities wRemote
        (applyFilters (effectiveDate 1000000000 wParams) wParams.date_from
          wParams.date_to
          ((upsert_tasks_cache_bulk 1000000000 wCacheStale []).map
            (fun row => hubspotTaskToActivity row.data)))).2⟩

set_option maxRecDepth 400000 in
/-- Witness for `cache_ttl_amended`: a 200s-old cache triggers no
collection list call and stays unchanged; a 400s-old cache triggers
exactly one refresh pass. -/
theorem cache_ttl_amended_witness :
    (countListTasksEvents wOutFresh.trace = 0 ∧ wOutFresh.cache = wCacheFresh) ∧
    countPassStarts wOutStale.trace = 1 := by
  constructor
  · exact (cache_ttl_amended wRemote wCacheFresh 1000000000 999800000 wParams 5 wOutFresh
      (by decide)
      (list_activities_fresh_eq wRemote wCacheFresh 1000000000 wParams 5 (by decide))).1
      (by decide)
  · exact (cache_ttl_amended wRemote wCacheStale 1000000000 999600000 wParams 5 wOutStale
      (by decide)
      (list_activities_stale_ok_eq wRemote wCacheStale 1000000000 wParams 5 [] [none]
        (by decide) (by decide))).2
      (by decide)

/-- A remote whose task listing always fails. -/
def wErrRemote : TasksRemote :=
  { tasksPage := fun _ => .error .exhausted
    contactsBatchOracle := fun _ => .ok []
    assocOracle := fun _ => .ok ⟨[]⟩
    companiesBatchOracle := fun _ => .ok [] }

set_option maxRecDepth 400000 in
/-- Witness for `cache_stale_on_error`: with a 400s-old sync and a
failing refresh, the listing returns the cached snapshot. -/
theorem cache_stale_on_error_witness :
    list_activities wErrRemote wCacheStale 1000000000 wParams 5 =
      some ⟨(applySort wParams.sort
          (applyFilters (effectiveDate 1000000000 wParams) wParams.date_from
            wParams.date_to
            (wCacheStale.map (fun row => hubspotTaskToActivity row.data)))).map
          activityDictToResponse,
        wCacheStale, [none].map CallEv.listTasksCall⟩ :=
  cache_stale_on_error wErrRemote wCacheStale 1000000000 999600000 wParams 5
    .exhausted [none] (by decide) (by decide) (by decide)

set_option maxRecDepth 400000 in
/-- Witness for `cache_refresh_upsert_only`: a refresh returning zero
records leaves the cached row in place and the cache unchanged. -/
theorem cache_refresh_upsert_only_witness :
    (⟨"t1", wTask1, 999600000⟩ : CacheRow) ∈ wOutStale.cache ∧
    wOutStale.cache = wCacheStale := by
  have h := cache_refresh_upsert_only wRemote wCacheStale 1000000000 999600000 wParams 5
    [] [none] wOutStale (by decide) (by decide) (by decide)
    (list_activities_stale_ok_eq wRemote wCacheStale 1000000000 wParams 5 [] [none]
      (by decide) (by decide))
  exact ⟨(h.1 ⟨"t1", wTask1, 999600000⟩ (by decide) (by decide)).1, h.2 rfl⟩

end HubSpotVerify











